import Mathlib

/-!
# Block storage engine of `s3onblock`

A shallow embedding of `pkg/storage/blockstorage.go` (`InMemoryBlockStorage`).

* Go `int64` values are modelled as `Int`; every `int64` arithmetic result is
  passed through `wrap64`, two's-complement wrap-around.
* A Go `[]byte` is a `List Byte`; a Go `map[string]T` is an association list
  read with `mapGet` and written with `mapSet`; the nil map of the zero-valued
  struct is `none`.
* A call ends in one of three ways: it returns normally (`ok`), it returns an
  `error` (`err`), or it panics at run time (`panic`).  Each outcome carries the
  engine state at that moment, because the Go methods mutate the receiver in
  place.
* The mutex only serialises the calls; the embedding is the sequential
  behaviour of one call.
-/

namespace Storage

/-- One octet of object data. -/
abbrev Byte := Fin 256

/-- Two's-complement wrap-around of a mathematical integer into `int64`. -/
def wrap64 (x : Int) : Int := (x + 2 ^ 63) % 2 ^ 64 - 2 ^ 63

/-- The values an `int64` can hold. -/
def isInt64 (x : Int) : Prop := -(2 ^ 63) ≤ x ∧ x < 2 ^ 63

instance (x : Int) : Decidable (isInt64 x) := by unfold isInt64; infer_instance

/-- Largest `int64`. -/
def maxInt64 : Int := 2 ^ 63 - 1

/-- Largest allocation the Go runtime accepts on 64-bit platforms
(`runtime.maxAlloc`, 48 heap address bits): `make([]byte, n)` panics with
"makeslice: len out of range" when `n` is negative or above it, so no byte slice
is longer. -/
def maxAlloc : Nat := 2 ^ 48

/-- The key space of one namespace: key -> backing buffer. -/
abbrev KeySpace := List (String × List Byte)

/-- The address space: bucket -> key -> backing buffer. -/
abbrev AddrSpace := List (String × KeySpace)

/-- Go map read `m[k]` with the comma-ok form: the first binding of `k`. -/
def mapGet {α : Type} : List (String × α) → String → Option α
  | [], _ => none
  | (k', v) :: t, k => if k' = k then some v else mapGet t k

/-- Go map assignment `m[k] = v`: replaces the binding of `k`, or adds one. -/
def mapSet {α : Type} : List (String × α) → String → α → List (String × α)
  | [], k, v => [(k, v)]
  | (k', v') :: t, k, v => if k' = k then (k, v) :: t else (k', v') :: mapSet t k v

/-- The struct `InMemoryBlockStorage` without its mutex.  `data = none` is the
nil map of a struct that was never connected. -/
structure InMemoryBlockStorage where
  totalCapacity : Int
  allocated : Int
  data : Option AddrSpace
  deriving DecidableEq

/-- The zero-valued struct `&storage.InMemoryBlockStorage{}` built by `main`. -/
def fresh : InMemoryBlockStorage := { totalCapacity := 0, allocated := 0, data := none }

/-- The six `errors.New` values of the engine, by message. -/
inductive StorageError where
  /-- The message "invalid capacity". -/
  | invalidCapacity
  /-- The message "invalid size for storage allocation". -/
  | invalidAllocation
  /-- The message "write exceeds storage capacity". -/
  | writeExceeds
  /-- The message "bucket does not exist". -/
  | noSuchBucket
  /-- The message "object does not exist". -/
  | noSuchKey
  /-- The message "read exceeds storage capacity". -/
  | readExceeds
  deriving DecidableEq, Repr

/-- The run-time panics the engine's statements can raise. -/
inductive PanicKind where
  /-- The panic "assignment to entry in nil map". -/
  | nilMapWrite
  /-- The panic "makeslice: len out of range". -/
  | makesliceLen
  /-- The panic "slice bounds out of range". -/
  | sliceBounds
  deriving DecidableEq, Repr

/-- How a call on the engine ends, with the engine state it leaves behind. -/
inductive Outcome (α : Type) where
  | ok (v : α) (s : InMemoryBlockStorage)
  | err (e : StorageError) (s : InMemoryBlockStorage)
  | panic (p : PanicKind) (s : InMemoryBlockStorage)
  deriving DecidableEq

/-- The engine state a call leaves behind, however it ended. -/
def Outcome.state {α : Type} : Outcome α → InMemoryBlockStorage
  | .ok _ s => s
  | .err _ s => s
  | .panic _ s => s

/-- Go `make([]byte, n)` for an `int64` or `int` length: `none` is the
makeslice panic. -/
def makeBytes (n : Int) : Option (List Byte) :=
  if n < 0 ∨ n > (maxAlloc : Int) then none else some (List.replicate n.toNat 0)

/-- Go `copy(dst[off:], src)` seen on the whole of `dst`, for `off <= len(dst)`:
`copy` moves `n = min(len(dst) - off, len(src))` bytes, so the first `n` bytes
of `src` replace the bytes of `dst` from `off` on; the length of `dst` does not
change. -/
def copyAt (dst : List Byte) (off : Nat) (src : List Byte) : List Byte :=
  let n := min (dst.length - off) src.length
  dst.take off ++ src.take n ++ dst.drop (off + n)

/-- The two-level read `d[bucket][key]`. -/
def getBuf (d : AddrSpace) (bucket key : String) : Option (List Byte) :=
  match mapGet d bucket with
  | none => none
  | some ks => mapGet ks key

/-- The two-level assignment `d[bucket][key] = buf` (an absent namespace counts
as empty). -/
def setBuf (d : AddrSpace) (bucket key : String) (buf : List Byte) : AddrSpace :=
  mapSet d bucket (mapSet ((mapGet d bucket).getD []) key buf)

/-- Lines 54-56 of `Write`: `if _, exists := s.data[bucket]; !exists` then
`s.data[bucket] = make(map[string][]byte)`. -/
def ensureBucket (d : AddrSpace) (bucket : String) : AddrSpace :=
  match mapGet d bucket with
  | some _ => d
  | none => mapSet d bucket []

/-- The backing buffer of `(bucket, key)` in a state, if both levels exist. -/
def buffer (s : InMemoryBlockStorage) (bucket key : String) : Option (List Byte) :=
  match s.data with
  | none => none
  | some d => getBuf d bucket key

/-- Whether the namespace `bucket` exists in a state. -/
def hasBucket (s : InMemoryBlockStorage) (bucket : String) : Bool :=
  match s.data with
  | none => false
  | some d => (mapGet d bucket).isSome

/-- `Connect`: rejects `capacity <= 0`; otherwise stores the capacity and
installs a new empty map.  The field `allocated` is not assigned. -/
def Connect (s : InMemoryBlockStorage) (capacity : Int) : Outcome Unit :=
  if capacity ≤ 0 then .err .invalidCapacity s
  else .ok () { s with totalCapacity := capacity, data := some [] }

/-- `AllocateBlockStorageCapacity`: the guard is
`size <= 0 || size+s.allocated > s.totalCapacity` in `int64` arithmetic, then
`s.allocated += size`.  The label `purpose` is not read. -/
def AllocateBlockStorageCapacity (s : InMemoryBlockStorage) (size : Int) (_purpose : String) :
    Outcome Unit :=
  if size ≤ 0 ∨ wrap64 (size + s.allocated) > s.totalCapacity then .err .invalidAllocation s
  else .ok () { s with allocated := wrap64 (s.allocated + size) }

/-- Lines 62-67 of `Write`, with `d` the map after the two creation steps and
`buf = d[bucket][key]`: the check
`offset < 0 || offset+int64(len(data)) > int64(len(buf))` in `int64` arithmetic,
then `copy(buf[offset:], data)`, whose slice expression panics when
`offset > len(buf)`. -/
def storeAt (s : InMemoryBlockStorage) (d : AddrSpace) (bucket key : String) (offset : Int)
    (data buf : List Byte) : Outcome Unit :=
  if offset < 0 ∨ wrap64 (offset + (data.length : Int)) > (buf.length : Int) then
    .err .writeExceeds { s with data := some d }
  else if offset > (buf.length : Int) then .panic .sliceBounds { s with data := some d }
  else .ok () { s with data := some (setBuf d bucket key (copyAt buf offset.toNat data)) }

/-- `Write`, statement by statement: create the namespace if absent (a panic on
the nil map of an unconnected engine), create the backing buffer of
`s.totalCapacity-s.allocated` bytes if the key is absent (a panic when `make`
rejects the length), then the bound check and the copy of `storeAt`. -/
def Write (s : InMemoryBlockStorage) (bucket key : String) (offset : Int) (data : List Byte) :
    Outcome Unit :=
  match s.data with
  | none => .panic .nilMapWrite s
  | some d =>
    let d1 := ensureBucket d bucket
    match getBuf d1 bucket key with
    | some buf => storeAt s d1 bucket key offset data buf
    | none =>
      match makeBytes (wrap64 (s.totalCapacity - s.allocated)) with
      | none => .panic .makesliceLen { s with data := some d1 }
      | some buf => storeAt s (setBuf d1 bucket key buf) bucket key offset data buf

/-- `Read`, statement by statement: the two existence checks (a nil map reads as
empty), the check `offset < 0 || offset+int64(length) > int64(len(data))` in
`int64` arithmetic, `make([]byte, length)`, then `copy(result, data[offset:])`,
whose slice expression panics when `offset > len(data)`.  No field of the state
is assigned. -/
def Read (s : InMemoryBlockStorage) (bucket key : String) (offset length : Int) :
    Outcome (List Byte) :=
  match mapGet (s.data.getD []) bucket with
  | none => .err .noSuchBucket s
  | some ks =>
    match mapGet ks key with
    | none => .err .noSuchKey s
    | some buf =>
      if offset < 0 ∨ wrap64 (offset + length) > (buf.length : Int) then .err .readExceeds s
      else
        match makeBytes length with
        | none => .panic .makesliceLen s
        | some result =>
          if offset > (buf.length : Int) then .panic .sliceBounds s
          else .ok (copyAt result 0 (buf.drop offset.toNat)) s

/-- One call on a connected engine. -/
inductive Call where
  | allocate (size : Int) (purpose : String)
  | write (bucket key : String) (offset : Int) (data : List Byte)
  | read (bucket key : String) (offset length : Int)
  deriving DecidableEq

/-- The engine state after one call, however the call ended. -/
def Call.step (s : InMemoryBlockStorage) : Call → InMemoryBlockStorage
  | .allocate size purpose => (AllocateBlockStorageCapacity s size purpose).state
  | .write bucket key offset data => (Write s bucket key offset data).state
  | .read bucket key offset length => (Read s bucket key offset length).state

/-- Whether one call ends in a run-time panic. -/
def Call.panics (s : InMemoryBlockStorage) : Call → Bool
  | .allocate size purpose =>
    match AllocateBlockStorageCapacity s size purpose with
    | .panic _ _ => true
    | _ => false
  | .write bucket key offset data =>
    match Write s bucket key offset data with
    | .panic _ _ => true
    | _ => false
  | .read bucket key offset length =>
    match Read s bucket key offset length with
    | .panic _ _ => true
    | _ => false

/-- The engine state after a sequence of calls, first call first. -/
def runCalls (s : InMemoryBlockStorage) (calls : List Call) : InMemoryBlockStorage :=
  calls.foldl Call.step s

/-- Every backing buffer of an address space is a slice the runtime can hold:
its length is at most `maxAlloc`. -/
def AddrFit (d : AddrSpace) : Prop :=
  ∀ ns ∈ d, ∀ kv ∈ ns.2, kv.2.length ≤ maxAlloc

instance (d : AddrSpace) : Decidable (AddrFit d) := by
  unfold AddrFit; infer_instance

/-- Every backing buffer of the state is a slice the runtime can hold.  A nil
map holds no buffer. -/
def SlicesFit (s : InMemoryBlockStorage) : Prop := AddrFit (s.data.getD [])

instance (s : InMemoryBlockStorage) : Decidable (SlicesFit s) := by
  unfold SlicesFit; infer_instance

/-- An engine in use: connected with capacity 10, 3 bytes allocated, and one
object `("b", "k")` whose 7-byte buffer starts with the byte 7.  It is the state
after `Connect(10)`, `AllocateBlockStorageCapacity(3, _)` and
`Write("b", "k", 0, [7])` on the zero-valued struct. -/
def used : InMemoryBlockStorage :=
  { totalCapacity := 10, allocated := 3, data := some [("b", [("k", [7, 0, 0, 0, 0, 0, 0])])] }

/-- A connected engine: the map is not nil, the capacity is positive, and both
counters hold `int64` values.  `Connect` is the only statement that assigns the
map and the capacity, and it stores a positive capacity. -/
def Connected (s : InMemoryBlockStorage) : Prop :=
  s.data ≠ none ∧ 0 < s.totalCapacity ∧ isInt64 s.totalCapacity ∧ isInt64 s.allocated

instance (s : InMemoryBlockStorage) : Decidable (Connected s) := by
  unfold Connected; infer_instance

/-- A sequence of allocation requests `(size, purpose)` as engine calls. -/
def allocateCalls (reqs : List (Int × String)) : List Call :=
  reqs.map fun r => Call.allocate r.1 r.2

/-- The sum of the sizes of the requests that `AllocateBlockStorageCapacity`
accepts when the requests are issued one after the other. -/
def succeededSum (s : InMemoryBlockStorage) : List (Int × String) → Int
  | [] => 0
  | r :: rest =>
    match AllocateBlockStorageCapacity s r.1 r.2 with
    | .ok _ s' => r.1 + succeededSum s' rest
    | .err _ s' => succeededSum s' rest
    | .panic _ s' => succeededSum s' rest

/-- Whether `AllocateBlockStorageCapacity` accepts every request of a sequence
issued one after the other. -/
def allSucceed (s : InMemoryBlockStorage) : List (Int × String) → Bool
  | [] => true
  | r :: rest =>
    match AllocateBlockStorageCapacity s r.1 r.2 with
    | .ok _ s' => allSucceed s' rest
    | .err _ _ => false
    | .panic _ _ => false

/-- The sum of the lengths of all backing buffers of an address space. -/
def bufferedBytes (d : AddrSpace) : Nat :=
  (d.map fun ns => (ns.2.map fun kv => kv.2.length).sum).sum

/-- The sum of the lengths of all backing buffers of a state. -/
def totalBuffered (s : InMemoryBlockStorage) : Nat := bufferedBytes (s.data.getD [])

end Storage

/-!
# Object gateway

A shallow embedding of the handlers of `pkg/s3server/s3server.go`.  A handler
takes the values it reads from the request (path parameters, the parsed query
values, the uploaded file) and returns the response it writes, the gateway state
it leaves, and the engine calls it made, in order.
-/

namespace Server

open Storage

/-- The bytes of a Go string under `[]byte(s)`: its UTF-8 encoding. -/
def bytesOf (s : String) : List Byte :=
  (s.data.flatMap String.utf8EncodeChar).map fun b => b.val

/-- The text of an engine error, as `%v` prints it. -/
def errorText : StorageError → String
  | .invalidCapacity => "invalid capacity"
  | .invalidAllocation => "invalid size for storage allocation"
  | .writeExceeds => "write exceeds storage capacity"
  | .noSuchBucket => "bucket does not exist"
  | .noSuchKey => "object does not exist"
  | .readExceeds => "read exceeds storage capacity"

/-- What a handler writes as the response body. -/
inductive Body where
  /-- A body written with `c.String`. -/
  | text (s : String)
  /-- A body written with `c.XML` from the map `Code`, `Message`. -/
  | xmlError (code message : String)
  /-- A body written with `c.XML` from the map `Location`, the request URL. -/
  | xmlLocation
  /-- A body written with `c.Data` as `application/octet-stream`. -/
  | octets (data : List Byte)
  deriving DecidableEq

/-- An HTTP response: status code and body. -/
structure Response where
  status : Nat
  body : Body
  deriving DecidableEq

/-- The struct `S3Server`: the engine behind the `storage` field and the keys of
the `sync.Map` that registers the buckets. -/
structure S3Server where
  storage : InMemoryBlockStorage
  buckets : List String
  deriving DecidableEq

/-- The outcome of one handler run: the response written (`none` when an engine
call panicked and the panic left the handler), the gateway state afterwards,
and the engine calls made, first call first. -/
structure Handled where
  response : Option Response
  server : S3Server
  calls : List Call
  deriving DecidableEq

/-- What `PutObject` gets out of the request's form file: `c.FormFile` fails,
`file.Open` fails, `openedFile.Read` fails, or the bytes read. -/
inductive Upload where
  | missing (why : String)
  | unopenable (why : String)
  | unreadable (why : String)
  | content (data : List Byte)
  deriving DecidableEq

/-- `CreateBucket`: `LoadOrStore` registers the name or finds it (409); then the
1024-byte metadata allocation (500 on error); then the metadata `Write` into the
namespace `"buckets"` (500 on error); then 200. -/
def CreateBucket (g : S3Server) (bucket : String) : Handled :=
  if bucket ∈ g.buckets then
    ⟨some ⟨409, .text "Bucket already exists"⟩, g, []⟩
  else
    let registry := bucket :: g.buckets
    let c1 := Call.allocate 1024 "bucket_metadata"
    match AllocateBlockStorageCapacity g.storage 1024 "bucket_metadata" with
    | .panic _ st => ⟨none, ⟨st, registry⟩, [c1]⟩
    | .err e st =>
      ⟨some ⟨500, .text ("Error allocating metadata capacity: " ++ errorText e)⟩,
        ⟨st, registry⟩, [c1]⟩
    | .ok _ st =>
      let metadata := bytesOf ("<Bucket><Name>" ++ bucket ++ "</Name></Bucket>")
      let c2 := Call.write "buckets" bucket 0 metadata
      match Write st "buckets" bucket 0 metadata with
      | .panic _ st' => ⟨none, ⟨st', registry⟩, [c1, c2]⟩
      | .err e st' =>
        ⟨some ⟨500, .text ("Error storing bucket metadata: " ++ errorText e)⟩,
          ⟨st', registry⟩, [c1, c2]⟩
      | .ok _ st' => ⟨some ⟨200, .text ""⟩, ⟨st', registry⟩, [c1, c2]⟩

/-- `DeleteBucket`: `LoadAndDelete` removes the name (204) or does not find it
(404).  The engine is not called. -/
def DeleteBucket (g : S3Server) (bucket : String) : Handled :=
  if bucket ∈ g.buckets then
    ⟨some ⟨204, .text ""⟩, { g with buckets := g.buckets.filter fun b => b ≠ bucket }, []⟩
  else
    ⟨some ⟨404, .text "Bucket does not exist"⟩, g, []⟩

/-- `PutObject`, with `offset` the value `strconv.ParseInt` returned for the
query: the registry check (404); the form file (400, 500, 500); the 512-byte
metadata allocation (500 on error); the metadata `Write` into the namespace
`"objects"` (500 on error); the data `Write` at `offset` (500 on error); then
200 with the location. -/
def PutObject (g : S3Server) (bucket key : String) (offset : Int) (upload : Upload) : Handled :=
  if bucket ∈ g.buckets then
    match upload with
    | .missing why => ⟨some ⟨400, .text ("Error retrieving file: " ++ why)⟩, g, []⟩
    | .unopenable why => ⟨some ⟨500, .text ("Failed to open file: " ++ why)⟩, g, []⟩
    | .unreadable why => ⟨some ⟨500, .text ("Failed to read file: " ++ why)⟩, g, []⟩
    | .content data =>
      let c1 := Call.allocate 512 "object_metadata"
      match AllocateBlockStorageCapacity g.storage 512 "object_metadata" with
      | .panic _ st => ⟨none, { g with storage := st }, [c1]⟩
      | .err e st =>
        ⟨some ⟨500, .text ("Error allocating object metadata capacity: " ++ errorText e)⟩,
          { g with storage := st }, [c1]⟩
      | .ok _ st =>
        let metadata := bytesOf ("<Object><Key>" ++ key ++ "</Key><Size>"
          ++ toString data.length ++ "</Size></Object>")
        let c2 := Call.write "objects" key 0 metadata
        match Write st "objects" key 0 metadata with
        | .panic _ st' => ⟨none, { g with storage := st' }, [c1, c2]⟩
        | .err e st' =>
          ⟨some ⟨500, .text ("Error storing object metadata: " ++ errorText e)⟩,
            { g with storage := st' }, [c1, c2]⟩
        | .ok _ st' =>
          let c3 := Call.write bucket key offset data
          match Write st' bucket key offset data with
          | .panic _ st'' => ⟨none, { g with storage := st'' }, [c1, c2, c3]⟩
          | .err e st'' =>
            ⟨some ⟨500, .text ("Error writing to storage: " ++ errorText e)⟩,
              { g with storage := st'' }, [c1, c2, c3]⟩
          | .ok _ st'' => ⟨some ⟨200, .xmlLocation⟩, { g with storage := st'' }, [c1, c2, c3]⟩
  else
    ⟨some ⟨404, .text "Bucket does not exist"⟩, g, []⟩

/-- `GetObject`, with `offset` the value `strconv.ParseInt` returned for the
query and `lengthQuery` the value of a `length` query that `strconv.Atoi`
accepted (the length is 1024 otherwise): the registry check (404,
`NoSuchBucket`); the `Read` (404, `NoSuchKey`, on any error); then 200 with the
bytes. -/
def GetObject (g : S3Server) (bucket key : String) (offset : Int) (lengthQuery : Option Int) :
    Handled :=
  let length := lengthQuery.getD 1024
  if bucket ∈ g.buckets then
    let c1 := Call.read bucket key offset length
    match Read g.storage bucket key offset length with
    | .panic _ st => ⟨none, { g with storage := st }, [c1]⟩
    | .err _ st =>
      ⟨some ⟨404, .xmlError "NoSuchKey" "The specified key does not exist."⟩,
        { g with storage := st }, [c1]⟩
    | .ok data st => ⟨some ⟨200, .octets data⟩, { g with storage := st }, [c1]⟩
  else
    ⟨some ⟨404, .xmlError "NoSuchBucket" "The specified bucket does not exist."⟩, g, []⟩

/-- A gateway in use: the engine was connected with capacity 1060 and the bucket
`"photos"` was created, so 1024 bytes are allocated, the namespace `"buckets"`
holds the 36 bytes of the bucket's metadata, and the registry holds `"photos"`. -/
def served : S3Server :=
  { storage :=
      { totalCapacity := 1060, allocated := 1024,
        data := some [("buckets",
          [("photos", bytesOf "<Bucket><Name>photos</Name></Bucket>")])] },
    buckets := ["photos"] }

end Server

namespace Storage

/-! ## Arithmetic and map lemmas -/

/-- On a value that fits `int64`, wrap-around is the identity. -/
theorem wrap64_of_isInt64 {x : Int} (h : isInt64 x) : wrap64 x = x := by
  unfold isInt64 at h
  unfold wrap64
  omega

/-- Wrap-around always lands in `int64`. -/
theorem isInt64_wrap64 (x : Int) : isInt64 (wrap64 x) := by
  unfold isInt64 wrap64
  omega

/-- Reading a map after an assignment. -/
theorem mapGet_mapSet {α : Type} (m : List (String × α)) (k k' : String) (v : α) :
    mapGet (mapSet m k v) k' = if k = k' then some v else mapGet m k' := by
  induction m with
  | nil => simp [mapSet, mapGet]
  | cons kv t ih =>
    obtain ⟨k0, v0⟩ := kv
    by_cases h0 : k0 = k
    · subst h0
      by_cases h1 : k0 = k' <;> simp [mapSet, mapGet, h1]
    · by_cases h1 : k0 = k'
      · subst h1
        have h2 : ¬ k = k0 := fun h => h0 h.symm
        simp [mapSet, mapGet, h0, h2]
      · simp [mapSet, mapGet, h0, h1, ih]

/-- A binding that is read is an entry of the association list. -/
theorem mem_of_mapGet {α : Type} {m : List (String × α)} {k : String} {v : α}
    (h : mapGet m k = some v) : (k, v) ∈ m := by
  induction m with
  | nil => simp [mapGet] at h
  | cons kv t ih =>
    obtain ⟨k0, v0⟩ := kv
    by_cases h0 : k0 = k
    · subst h0
      simp [mapGet] at h
      simp [h]
    · simp [mapGet, h0] at h
      exact List.mem_cons_of_mem _ (ih h)

/-- Reading the address space after a two-level assignment. -/
theorem getBuf_setBuf (d : AddrSpace) (b k b' k' : String) (buf : List Byte) :
    getBuf (setBuf d b k buf) b' k' =
      if b = b' ∧ k = k' then some buf else getBuf d b' k' := by
  unfold getBuf setBuf
  rw [mapGet_mapSet]
  by_cases hb : b = b'
  · subst hb
    simp only [if_true, true_and]
    rw [mapGet_mapSet]
    cases hd : mapGet d b <;> simp [mapGet]
  · simp [hb]

/-- Creating the namespace does not create or change any backing buffer. -/
theorem getBuf_ensureBucket (d : AddrSpace) (b b' k' : String) :
    getBuf (ensureBucket d b) b' k' = getBuf d b' k' := by
  unfold ensureBucket
  cases hd : mapGet d b with
  | some ks => rfl
  | none =>
    unfold getBuf
    simp only [mapGet_mapSet]
    by_cases hb : b = b'
    · subst hb
      simp [hd, mapGet]
    · simp [hb]

end Storage

namespace Storage

/-! ## Connect and the capacity ledger -/

/-- The state `used` is what the three calls of its description produce. -/
theorem used_reached :
    Connect fresh 10 = .ok () ⟨10, 0, some []⟩ ∧
      runCalls ⟨10, 0, some []⟩ [.allocate 3 "object_metadata", .write "b" "k" 0 [7]] = used := by
  decide

/-- Where `allocated + size` fits `int64`, `AllocateBlockStorageCapacity` does
what its guard reads as: it succeeds exactly when `size > 0` and
`allocated + size <= totalCapacity`, adding `size` to `allocated`, and otherwise
returns the allocation error with the state untouched. -/
theorem allocate_without_overflow (s : InMemoryBlockStorage) (size : Int) (purpose : String)
    (hfit : isInt64 (s.allocated + size)) :
    (0 < size ∧ s.allocated + size ≤ s.totalCapacity →
        AllocateBlockStorageCapacity s size purpose
          = .ok () { s with allocated := s.allocated + size }) ∧
      (¬ (0 < size ∧ s.allocated + size ≤ s.totalCapacity) →
        AllocateBlockStorageCapacity s size purpose = .err .invalidAllocation s) := by
  have h1 : wrap64 (size + s.allocated) = s.allocated + size := by
    rw [Int.add_comm]; exact wrap64_of_isInt64 hfit
  have h2 : wrap64 (s.allocated + size) = s.allocated + size := wrap64_of_isInt64 hfit
  unfold AllocateBlockStorageCapacity
  rw [h1, h2]
  constructor
  · rintro ⟨hpos, hle⟩
    rw [if_neg (by omega)]
  · intro hn
    rw [if_pos (by omega)]

/-- C1 (the code departs from the claim): with `totalCapacity = 10` and
`allocated = 1`, a request for `2^63 - 1` bytes is accepted although
`allocated + size > totalCapacity` as integers, because `size+s.allocated`
wraps around in `int64`; `allocated` becomes `-2^63`, not `allocated + size`. -/
theorem allocate_accepts_overflowing_size :
    AllocateBlockStorageCapacity ⟨10, 1, some []⟩ maxInt64 "bucket_metadata"
        = .ok () ⟨10, -(2 ^ 63), some []⟩ ∧
      ¬ ((1 : Int) + maxInt64 ≤ 10) := by
  decide

/-- C2 (the code departs from the claim): after `Connect(10)` on the
zero-valued struct, `AllocateBlockStorageCapacity(1, _)` followed by
`AllocateBlockStorageCapacity(2^63 - 1, _)` leaves `allocated = -2^63`, so
`0 <= allocated` no longer holds. -/
theorem ledger_invariant_broken_by_overflow :
    Connect fresh 10 = .ok () ⟨10, 0, some []⟩ ∧
      runCalls ⟨10, 0, some []⟩ [.allocate 1 "a", .allocate maxInt64 "b"]
        = ⟨10, -(2 ^ 63), some []⟩ ∧
      ¬ ((0 : Int) ≤ -(2 ^ 63)) := by
  decide

/-- C5 (the code departs from the claim): `Connect` assigns `totalCapacity` and
the map but not `allocated`.  After `Connect(10)` on the zero-valued struct and
`AllocateBlockStorageCapacity(8, _)`, a second `Connect(5)` succeeds and leaves
`allocated = 8`, not 0, so the ledger holds `allocated > totalCapacity`; the
next `Write` to a new key then panics in `make`, whose length
`totalCapacity - allocated` is negative. -/
theorem connect_leaves_allocated_stale :
    Connect fresh 10 = .ok () ⟨10, 0, some []⟩ ∧
      AllocateBlockStorageCapacity ⟨10, 0, some []⟩ 8 "p" = .ok () ⟨10, 8, some []⟩ ∧
      Connect ⟨10, 8, some []⟩ 5 = .ok () ⟨5, 8, some []⟩ ∧
      (8 : Int) ≠ 0 ∧ ¬ ((8 : Int) ≤ 5) ∧
      Write ⟨5, 8, some []⟩ "b" "k" 0 [] = .panic .makesliceLen ⟨5, 8, some [("b", [])]⟩ := by
  decide

/-- What `Connect` does on every prior state, for every `capacity > 0`: it
succeeds and leaves `totalCapacity = capacity` and an empty address space, and
it leaves `allocated` as it was before the call; `allocated` is 0 afterwards
only when it was 0 before, as on the zero-valued struct. -/
theorem connect_sets_capacity_and_clears_data (s : InMemoryBlockStorage) (capacity : Int)
    (hpos : 0 < capacity) :
    ∃ s', Connect s capacity = .ok () s' ∧ s'.totalCapacity = capacity ∧
      s'.data = some [] ∧ s'.allocated = s.allocated ∧
      (s.allocated = 0 → s'.allocated = 0) := by
  refine ⟨{ s with totalCapacity := capacity, data := some [] }, ?_, rfl, rfl, rfl, fun h => h⟩
  unfold Connect
  rw [if_neg (by omega)]

/-- An instance of the previous fact: `Connect(5)` on the engine `used`, which
has `allocated = 3` and one object, leaves `⟨5, 3, some []⟩`. -/
theorem connect_on_used_engine :
    Connect used 5 = .ok () ⟨5, 3, some []⟩ ∧ (3 : Int) ≠ 0 := by
  decide

/-- C6: for every prior state and every `capacity <= 0`, `Connect` returns the
"invalid capacity" error and the state it leaves is the state it found:
`totalCapacity`, `allocated` and the address space are unchanged. -/
theorem connect_rejects_nonpositive_capacity (s : InMemoryBlockStorage) (capacity : Int)
    (hcap : capacity ≤ 0) :
    Connect s capacity = .err .invalidCapacity s := by
  unfold Connect
  rw [if_pos hcap]

/-- Witness for C6: `Connect(-4)` on the engine `used`. -/
theorem connect_rejects_nonpositive_capacity_witness :
    (-4 : Int) ≤ 0 ∧ Connect used (-4) = .err .invalidCapacity used :=
  ⟨by decide, connect_rejects_nonpositive_capacity used (-4) (by decide)⟩

end Storage

namespace Storage

/-! ## The copy and the shape of a successful Write -/

/-- When the source fits behind `off`, `copy` moves all of it. -/
theorem copyAt_of_fits (dst src : List Byte) (off : Nat) (h : off + src.length ≤ dst.length) :
    copyAt dst off src = dst.take off ++ src ++ dst.drop (off + src.length) := by
  unfold copyAt
  have hn : min (dst.length - off) src.length = src.length := by omega
  simp only [hn, List.take_length]

/-- The copy never changes the length of the destination. -/
theorem length_copyAt (dst src : List Byte) (off : Nat) (h : off ≤ dst.length) :
    (copyAt dst off src).length = dst.length := by
  unfold copyAt
  simp only [List.length_append, List.length_take, List.length_drop]
  omega

/-- Reading back the span that a fitting copy wrote gives the source. -/
theorem readBack_copyAt (dst src : List Byte) (off : Nat) (h : off + src.length ≤ dst.length) :
    copyAt (List.replicate src.length 0) 0 ((copyAt dst off src).drop off) = src := by
  rw [copyAt_of_fits dst src off h]
  have hd : (dst.take off ++ src ++ dst.drop (off + src.length)).drop off
      = src ++ dst.drop (off + src.length) := by
    rw [List.append_assoc]
    have hl : (dst.take off).length = off := by
      rw [List.length_take]; omega
    rw [List.drop_append_eq_append_drop, hl, Nat.sub_self, List.drop_zero,
      List.drop_eq_nil_of_le (by omega), List.nil_append]
  rw [hd]
  unfold copyAt
  simp

/-- The bytes of the written span after a fitting copy. -/
theorem getElem?_copyAt_inside (dst src : List Byte) (off i : Nat)
    (h : off + src.length ≤ dst.length) (hi : i < src.length) :
    (copyAt dst off src)[off + i]? = src[i]? := by
  rw [copyAt_of_fits dst src off h]
  have hl : (dst.take off).length = off := by
    rw [List.length_take]; omega
  rw [List.append_assoc, List.getElem?_append_right (by omega), hl,
    List.getElem?_append_left (by omega)]
  congr 1
  omega

/-- The bytes before the written span after a fitting copy. -/
theorem getElem?_copyAt_before (dst src : List Byte) (off j : Nat)
    (h : off + src.length ≤ dst.length) (hj : j < off) :
    (copyAt dst off src)[j]? = dst[j]? := by
  rw [copyAt_of_fits dst src off h]
  have hl : (dst.take off).length = off := by
    rw [List.length_take]; omega
  rw [List.append_assoc, List.getElem?_append_left (by omega), List.getElem?_take]
  simp [hj]

/-- The bytes after the written span after a fitting copy. -/
theorem getElem?_copyAt_after (dst src : List Byte) (off j : Nat)
    (h : off + src.length ≤ dst.length) (hj : off + src.length ≤ j) :
    (copyAt dst off src)[j]? = dst[j]? := by
  rw [copyAt_of_fits dst src off h]
  have hl : (dst.take off ++ src).length = off + src.length := by
    rw [List.length_append, List.length_take]; omega
  rw [List.getElem?_append_right (by omega), hl, List.getElem?_drop]
  congr 1
  omega

end Storage

namespace Storage

/-- What `make([]byte, n)` returns when it does not panic. -/
theorem makeBytes_eq_some {n : Int} {buf : List Byte} (h : makeBytes n = some buf) :
    0 ≤ n ∧ n ≤ (maxAlloc : Int) ∧ buf = List.replicate n.toNat 0 := by
  unfold makeBytes at h
  split_ifs at h with hc
  simp only [Option.some.injEq] at h
  exact ⟨by omega, by omega, h.symm⟩

/-- In a state whose slices fit, every backing buffer that can be read is at
most `maxAlloc` long. -/
theorem length_le_of_buffer {s : InMemoryBlockStorage} {b k : String} {buf : List Byte}
    (hfit : SlicesFit s) (h : buffer s b k = some buf) : buf.length ≤ maxAlloc := by
  unfold buffer at h
  cases hd : s.data with
  | none => simp [hd] at h
  | some d =>
    simp only [hd, getBuf] at h
    cases hb : mapGet d b with
    | none => simp [hb] at h
    | some ks =>
      simp only [hb] at h
      have h1 := mem_of_mapGet hb
      have h2 := mem_of_mapGet h
      have := hfit (b, ks) (by simpa [hd] using h1) (k, buf) h2
      simpa using this

/-- `Read` on an existing backing buffer: the bound check, the `make`, the
slice expression and the copy. -/
theorem Read_of_buffer {s : InMemoryBlockStorage} {b k : String} {buf : List Byte}
    (h : buffer s b k = some buf) (o l : Int) :
    Read s b k o l =
      if o < 0 ∨ wrap64 (o + l) > (buf.length : Int) then .err .readExceeds s
      else
        match makeBytes l with
        | none => .panic .makesliceLen s
        | some result =>
          if o > (buf.length : Int) then .panic .sliceBounds s
          else .ok (copyAt result 0 (buf.drop o.toNat)) s := by
  unfold buffer at h
  cases hd : s.data with
  | none => simp [hd] at h
  | some d =>
    simp only [hd, getBuf] at h
    cases hb : mapGet d b with
    | none => simp [hb] at h
    | some ks =>
      simp only [hb] at h
      simp only [Read, hd, Option.getD_some, hb, h]

/-- The shape of a `Write` that returns nil: the buffer it worked on is the
existing one, or a new zero-filled one of `totalCapacity - allocated` bytes; the
bound check passed and the slice expression was in range; the ledger is as
before; and the only buffer that differs afterwards is that of `(b, k)`, which
holds the result of the copy. -/
theorem Write_ok_inv {s s' : InMemoryBlockStorage} {b k : String} {o : Int} {data : List Byte}
    (h : Write s b k o data = .ok () s') :
    ∃ buf, (buffer s b k = some buf ∨
        (buffer s b k = none ∧
          makeBytes (wrap64 (s.totalCapacity - s.allocated)) = some buf)) ∧
      0 ≤ o ∧ wrap64 (o + (data.length : Int)) ≤ (buf.length : Int) ∧ o ≤ (buf.length : Int) ∧
      s'.totalCapacity = s.totalCapacity ∧ s'.allocated = s.allocated ∧
      ∀ b' k', buffer s' b' k' =
        if b = b' ∧ k = k' then some (copyAt buf o.toNat data) else buffer s b' k' := by
  unfold Write at h
  cases hd : s.data with
  | none => simp [hd] at h
  | some d =>
    simp only [hd] at h
    cases hg : getBuf (ensureBucket d b) b k with
    | some buf =>
      simp only [hg, storeAt] at h
      split_ifs at h with h1 h2
      simp only [Outcome.ok.injEq, true_and] at h
      subst h
      refine ⟨buf, Or.inl ?_, by omega, by omega, by omega, rfl, rfl, ?_⟩
      · simp only [buffer, hd]
        rw [← getBuf_ensureBucket d b b k]
        exact hg
      · intro b' k'
        simp only [buffer, hd, getBuf_setBuf, getBuf_ensureBucket]
    | none =>
      simp only [hg] at h
      cases hm : makeBytes (wrap64 (s.totalCapacity - s.allocated)) with
      | none => simp [hm] at h
      | some buf =>
        simp only [hm, storeAt] at h
        split_ifs at h with h1 h2
        simp only [Outcome.ok.injEq, true_and] at h
        subst h
        refine ⟨buf, Or.inr ⟨?_, rfl⟩, by omega, by omega, by omega, rfl, rfl, ?_⟩
        · simp only [buffer, hd]
          rw [← getBuf_ensureBucket d b b k]
          exact hg
        · intro b' k'
          simp only [buffer, hd, getBuf_setBuf, getBuf_ensureBucket]
          by_cases hc : b = b' ∧ k = k' <;> simp [hc]

/-- In a state whose slices fit and for data the runtime can hold, a `Write`
that returns nil passed its bound check without wrap-around: the span
`[o, o + len(data))` lies inside the buffer, whose length is at most
`maxAlloc`. -/
theorem Write_ok_span {s s' : InMemoryBlockStorage} {b k : String} {o : Int} {data : List Byte}
    (hfit : SlicesFit s) (hdata : data.length ≤ maxAlloc)
    (h : Write s b k o data = .ok () s') :
    ∃ buf, (buffer s b k = some buf ∨
        (buffer s b k = none ∧
          buf = List.replicate (wrap64 (s.totalCapacity - s.allocated)).toNat 0)) ∧
      0 ≤ o ∧ o.toNat + data.length ≤ buf.length ∧ buf.length ≤ maxAlloc ∧
      s'.totalCapacity = s.totalCapacity ∧ s'.allocated = s.allocated ∧
      ∀ b' k', buffer s' b' k' =
        if b = b' ∧ k = k' then some (copyAt buf o.toNat data) else buffer s b' k' := by
  obtain ⟨buf, hsrc, h0, hchk, hle, ht, ha, hfr⟩ := Write_ok_inv h
  have hlen : buf.length ≤ maxAlloc := by
    rcases hsrc with hex | ⟨_, hmk⟩
    · exact length_le_of_buffer hfit hex
    · obtain ⟨hn0, hn1, rfl⟩ := makeBytes_eq_some hmk
      rw [List.length_replicate]
      omega
  have hmax : (maxAlloc : Int) = 2 ^ 48 := by simp [maxAlloc]
  have hw : wrap64 (o + (data.length : Int)) = o + (data.length : Int) := by
    apply wrap64_of_isInt64
    unfold isInt64
    have : ((data.length : Nat) : Int) ≤ (maxAlloc : Int) := by exact_mod_cast hdata
    have : ((buf.length : Nat) : Int) ≤ (maxAlloc : Int) := by exact_mod_cast hlen
    omega
  rw [hw] at hchk
  refine ⟨buf, ?_, h0, by omega, hlen, ht, ha, hfr⟩
  rcases hsrc with hex | ⟨hno, hmk⟩
  · exact Or.inl hex
  · exact Or.inr ⟨hno, (makeBytes_eq_some hmk).2.2⟩


/-! ## Round trip and the effect of a Write -/

/-- C3: write-then-read round trip.  For every engine state whose buffers are
slices the runtime can hold, every bucket, key, `int64` offset and byte sequence
the runtime can hold: if `Write(b, k, o, data)` returns nil, the immediately
following `Read(b, k, o, len(data))` returns exactly `data` and no error (and
leaves the state as the `Write` left it). -/
theorem write_then_read_round_trip (s s' : InMemoryBlockStorage) (b k : String) (o : Int)
    (data : List Byte) (hfit : SlicesFit s) (hdata : data.length ≤ maxAlloc)
    (hw : Write s b k o data = .ok () s') :
    Read s' b k o (data.length : Int) = .ok data s' := by
  obtain ⟨buf, _, h0, hspan, hlen, _, _, hfr⟩ := Write_ok_span hfit hdata hw
  have hb : buffer s' b k = some (copyAt buf o.toNat data) := by
    rw [hfr b k]; simp
  have hl : (copyAt buf o.toNat data).length = buf.length := length_copyAt _ _ _ (by omega)
  have hmax : (maxAlloc : Int) = 2 ^ 48 := by simp [maxAlloc]
  have hd : ((data.length : Nat) : Int) ≤ (maxAlloc : Int) := by exact_mod_cast hdata
  have hbl : ((buf.length : Nat) : Int) ≤ (maxAlloc : Int) := by exact_mod_cast hlen
  have hwrap : wrap64 (o + (data.length : Int)) = o + (data.length : Int) := by
    apply wrap64_of_isInt64
    unfold isInt64
    omega
  have hmk : makeBytes (data.length : Int) = some (List.replicate data.length 0) := by
    unfold makeBytes
    rw [if_neg (by omega)]
    simp
  rw [Read_of_buffer hb, hl, hwrap, if_neg (by omega), hmk]
  simp only
  rw [if_neg (by omega), readBack_copyAt buf data o.toNat hspan]

/-- Witness for C3: `Write("b", "k", 2, [9, 8])` on the engine `used`. -/
theorem write_then_read_round_trip_witness :
    SlicesFit used ∧ ([9, 8] : List Byte).length ≤ maxAlloc ∧
      Write used "b" "k" 2 [9, 8]
        = .ok () ⟨10, 3, some [("b", [("k", [7, 0, 9, 8, 0, 0, 0])])]⟩ ∧
      Read ⟨10, 3, some [("b", [("k", [7, 0, 9, 8, 0, 0, 0])])]⟩ "b" "k" 2
          (([9, 8] : List Byte).length : Int)
        = .ok [9, 8] ⟨10, 3, some [("b", [("k", [7, 0, 9, 8, 0, 0, 0])])]⟩ :=
  ⟨by decide, by decide, by decide,
    write_then_read_round_trip used _ "b" "k" 2 [9, 8] (by decide) (by decide) (by decide)⟩

end Storage

namespace Storage

/-- C9: effect of a successful `Write`.  For every engine state whose buffers
are slices the runtime can hold and every byte sequence the runtime can hold, if
`Write(b, k, o, data)` returns nil then, with `old` the buffer of `(b, k)`
before the call (all zero bytes when the key did not exist before) and `new` the
buffer after it: `new` is as long as `old`, the bytes of `new` at
`[o, o + len(data))` are `data`, and every byte of `new` outside that span is
the byte of `old` at the same position. -/
theorem write_effect_on_buffer (s s' : InMemoryBlockStorage) (b k : String) (o : Int)
    (data : List Byte) (hfit : SlicesFit s) (hdata : data.length ≤ maxAlloc)
    (hw : Write s b k o data = .ok () s') :
    ∃ old new, buffer s' b k = some new ∧
      (buffer s b k = some old ∨
        (buffer s b k = none ∧ old = List.replicate old.length 0)) ∧
      new.length = old.length ∧ 0 ≤ o ∧ o.toNat + data.length ≤ new.length ∧
      (∀ i, i < data.length → new[o.toNat + i]? = data[i]?) ∧
      (∀ j, j < o.toNat ∨ o.toNat + data.length ≤ j → new[j]? = old[j]?) := by
  obtain ⟨buf, hsrc, h0, hspan, _, _, _, hfr⟩ := Write_ok_span hfit hdata hw
  have hl : (copyAt buf o.toNat data).length = buf.length := length_copyAt _ _ _ (by omega)
  refine ⟨buf, copyAt buf o.toNat data, ?_, ?_, hl, h0, by omega, ?_, ?_⟩
  · rw [hfr b k]; simp
  · rcases hsrc with hex | ⟨hno, hz⟩
    · exact Or.inl hex
    · refine Or.inr ⟨hno, ?_⟩
      rw [hz, List.length_replicate]
  · intro i hi
    exact getElem?_copyAt_inside buf data o.toNat i hspan hi
  · intro j hj
    rcases hj with hj | hj
    · exact getElem?_copyAt_before buf data o.toNat j hspan hj
    · exact getElem?_copyAt_after buf data o.toNat j hspan hj

/-- Witness for C9: `Write("b", "q", 1, [5, 6])` on the engine `used`, where the
key `"q"` is new and receives a buffer of `10 - 3 = 7` bytes. -/
theorem write_effect_on_buffer_witness :
    SlicesFit used ∧ ([5, 6] : List Byte).length ≤ maxAlloc ∧
      Write used "b" "q" 1 [5, 6]
        = .ok () ⟨10, 3, some [("b", [("k", [7, 0, 0, 0, 0, 0, 0]),
            ("q", [0, 5, 6, 0, 0, 0, 0])])]⟩ ∧
      ∃ old new,
        buffer ⟨10, 3, some [("b", [("k", [7, 0, 0, 0, 0, 0, 0]),
            ("q", [0, 5, 6, 0, 0, 0, 0])])]⟩ "b" "q" = some new ∧
        (buffer used "b" "q" = some old ∨
          (buffer used "b" "q" = none ∧ old = List.replicate old.length 0)) ∧
        new.length = old.length ∧ (0 : Int) ≤ 1 ∧
        (1 : Int).toNat + ([5, 6] : List Byte).length ≤ new.length ∧
        (∀ i, i < ([5, 6] : List Byte).length →
          new[(1 : Int).toNat + i]? = ([5, 6] : List Byte)[i]?) ∧
        (∀ j, j < (1 : Int).toNat ∨ (1 : Int).toNat + ([5, 6] : List Byte).length ≤ j →
          new[j]? = old[j]?) :=
  ⟨by decide, by decide, by decide,
    write_effect_on_buffer used _ "b" "q" 1 [5, 6] (by decide) (by decide) (by decide)⟩

end Storage

namespace Storage

/-! ## Calls that return an error -/

/-- Creating the namespace is the identity when a buffer can be read in it. -/
theorem ensureBucket_of_getBuf {d : AddrSpace} {b k : String} {buf : List Byte}
    (h : getBuf d b k = some buf) : ensureBucket d b = d := by
  unfold getBuf at h
  unfold ensureBucket
  cases hb : mapGet d b with
  | none => simp [hb] at h
  | some ks => rfl

/-- The namespaces after creating one. -/
theorem isSome_mapGet_ensureBucket (d : AddrSpace) (b b' : String) :
    (mapGet (ensureBucket d b) b').isSome = ((mapGet d b').isSome || decide (b' = b)) := by
  unfold ensureBucket
  cases hb : mapGet d b with
  | some ks =>
    by_cases hbb : b' = b
    · subst hbb; simp [hb]
    · simp [hbb]
  | none =>
    simp only [mapGet_mapSet]
    by_cases hbb : b' = b
    · subst hbb; simp
    · have : ¬ b = b' := fun h => hbb h.symm
      simp [hbb, this]

/-- The namespaces after a two-level assignment. -/
theorem isSome_mapGet_setBuf (d : AddrSpace) (b k b' : String) (buf : List Byte) :
    (mapGet (setBuf d b k buf) b').isSome = ((mapGet d b').isSome || decide (b' = b)) := by
  unfold setBuf
  simp only [mapGet_mapSet]
  by_cases hbb : b' = b
  · subst hbb; simp
  · have : ¬ b = b' := fun h => hbb h.symm
    simp [hbb, this]

/-- The shape of a `Write` that returns an error: the error is the bound-check
one; the engine was connected; and either `(b, k)` had a buffer and the state is
untouched, or it had none and the state now holds the namespace and a new
zero-filled buffer for `(b, k)`. -/
theorem Write_err_inv {s s' : InMemoryBlockStorage} {b k : String} {o : Int} {data : List Byte}
    {e : StorageError} (h : Write s b k o data = .err e s') :
    e = .writeExceeds ∧ ∃ d, s.data = some d ∧
      ((∃ buf, getBuf d b k = some buf ∧ s' = s) ∨
        (getBuf d b k = none ∧ ∃ buf,
          makeBytes (wrap64 (s.totalCapacity - s.allocated)) = some buf ∧
          s' = { s with data := some (setBuf (ensureBucket d b) b k buf) })) := by
  unfold Write at h
  cases hd : s.data with
  | none => simp [hd] at h
  | some d =>
    simp only [hd] at h
    cases hg : getBuf (ensureBucket d b) b k with
    | some buf =>
      simp only [hg, storeAt] at h
      rw [getBuf_ensureBucket] at hg
      rw [ensureBucket_of_getBuf hg] at h
      split_ifs at h with h1 h2
      simp only [Outcome.err.injEq] at h
      refine ⟨h.1.symm, d, rfl, Or.inl ⟨buf, hg, ?_⟩⟩
      rw [← h.2]
      cases s
      simp only at hd
      subst hd
      rfl
    | none =>
      simp only [hg] at h
      rw [getBuf_ensureBucket] at hg
      cases hm : makeBytes (wrap64 (s.totalCapacity - s.allocated)) with
      | none => simp [hm] at h
      | some buf =>
        simp only [hm, storeAt] at h
        split_ifs at h with h1 h2
        simp only [Outcome.err.injEq] at h
        exact ⟨h.1.symm, d, rfl, Or.inr ⟨hg, buf, rfl, h.2.symm⟩⟩

/-- `Read` assigns no field: whatever it returns, the state is the one it
found. -/
theorem Read_state (s : InMemoryBlockStorage) (b k : String) (o l : Int) :
    (Read s b k o l).state = s := by
  unfold Read
  repeat' split
  all_goals rfl

/-- C4 (as the claim states it, refuted): on the engine just connected with
capacity 10, `Write("b", "k", -1, [])` returns the write error and leaves an
address space that now holds the namespace `"b"` and a 10-byte buffer for
`("b", "k")`; the state after the call is not the state before it. -/
theorem failed_write_creates_buffer :
    Write ⟨10, 0, some []⟩ "b" "k" (-1) []
        = .err .writeExceeds ⟨10, 0, some [("b", [("k", [0, 0, 0, 0, 0, 0, 0, 0, 0, 0])])]⟩ ∧
      (⟨10, 0, some [("b", [("k", [0, 0, 0, 0, 0, 0, 0, 0, 0, 0])])]⟩ : InMemoryBlockStorage)
        ≠ ⟨10, 0, some []⟩ := by
  decide

/-- C4 (amended): a call to `Connect`, `AllocateBlockStorageCapacity` or `Read`
that returns an error leaves the engine state identical.  A `Write(b, k, ...)`
that returns an error leaves `totalCapacity` and `allocated` identical; when
`(b, k)` already had a backing buffer the whole state is identical; otherwise
the first reference has created the namespace `b` (if it was absent) and a
zero-filled buffer for `(b, k)` of `totalCapacity - allocated` bytes (in `int64`
arithmetic), and every other namespace, key and buffer is as before. -/
theorem failed_call_changes_only_first_touch (s : InMemoryBlockStorage) :
    (∀ capacity e s', Connect s capacity = .err e s' → s' = s) ∧
    (∀ size purpose e s', AllocateBlockStorageCapacity s size purpose = .err e s' → s' = s) ∧
    (∀ b k o l e s', Read s b k o l = .err e s' → s' = s) ∧
    (∀ b k o data e s', Write s b k o data = .err e s' →
      s'.totalCapacity = s.totalCapacity ∧ s'.allocated = s.allocated ∧
      (buffer s b k ≠ none → s' = s) ∧
      (∀ b', hasBucket s' b' = (hasBucket s b' || decide (b' = b))) ∧
      (∀ b' k', buffer s' b' k' =
        if b = b' ∧ k = k' ∧ buffer s b k = none then
          some (List.replicate (wrap64 (s.totalCapacity - s.allocated)).toNat 0)
        else buffer s b' k')) := by
  refine ⟨?_, ?_, ?_, ?_⟩
  · intro capacity e s' h
    unfold Connect at h
    split_ifs at h
    simp only [Outcome.err.injEq] at h
    exact h.2.symm
  · intro size purpose e s' h
    unfold AllocateBlockStorageCapacity at h
    split_ifs at h
    simp only [Outcome.err.injEq] at h
    exact h.2.symm
  · intro b k o l e s' h
    have hs := Read_state s b k o l
    rw [h] at hs
    exact hs
  · intro b k o data e s' h
    obtain ⟨_, d, hd, hcase⟩ := Write_err_inv h
    rcases hcase with ⟨buf, hg, rfl⟩ | ⟨hg, buf, hm, rfl⟩
    · have hb : buffer s' b k = some buf := by simp [buffer, hd, hg]
      have hns : mapGet d b ≠ none := by
        intro hn
        simp [getBuf, hn] at hg
      refine ⟨rfl, rfl, fun _ => rfl, ?_, ?_⟩
      · intro b'
        by_cases hbb : b' = b
        · subst hbb
          simp only [hasBucket, hd]
          cases hx : mapGet d b' with
          | none => exact absurd hx hns
          | some ks => simp
        · simp [hbb]
      · intro b' k'
        simp [hb]
    · have hb : buffer s b k = none := by simp [buffer, hd, hg]
      obtain ⟨_, _, hz⟩ := makeBytes_eq_some hm
      refine ⟨rfl, rfl, fun hne => absurd hb hne, ?_, ?_⟩
      · intro b'
        simp only [hasBucket, hd, isSome_mapGet_setBuf, isSome_mapGet_ensureBucket]
        cases (mapGet d b').isSome <;> simp
      · intro b' k'
        simp only [buffer, hd, getBuf_setBuf, getBuf_ensureBucket, hg, and_true, ← hz]


/-- Witness for C4 (amended): the failing `Write("b", "q", -1, [1])` on the
engine `used` creates the 7-byte buffer of the new key `"q"` and leaves the
ledger and the buffer of `("b", "k")` as they were. -/
theorem failed_call_changes_only_first_touch_witness :
    Write used "b" "q" (-1) [1]
        = .err .writeExceeds ⟨10, 3, some [("b", [("k", [7, 0, 0, 0, 0, 0, 0]),
            ("q", [0, 0, 0, 0, 0, 0, 0])])]⟩ ∧
      buffer ⟨10, 3, some [("b", [("k", [7, 0, 0, 0, 0, 0, 0]),
            ("q", [0, 0, 0, 0, 0, 0, 0])])]⟩ "b" "k" =
        if "b" = "b" ∧ "q" = "k" ∧ buffer used "b" "q" = none then
          some (List.replicate (wrap64 (used.totalCapacity - used.allocated)).toNat 0)
        else buffer used "b" "k" :=
  ⟨by decide,
    ((failed_call_changes_only_first_touch used).2.2.2 "b" "q" (-1) [1] .writeExceeds _
      (by decide)).2.2.2.2 "b" "k"⟩

end Storage

namespace Storage

/-! ## Bound checks at the edge of `int64` -/

/-- The result buffer of a `Read` whose span lies inside the backing buffer:
`copy(result, data[offset:])` fills all `l` bytes of `result`. -/
theorem copyAt_result (buf : List Byte) (off l : Nat) (h : off + l ≤ buf.length) :
    copyAt (List.replicate l 0) 0 (buf.drop off) = (buf.drop off).take l := by
  unfold copyAt
  have hn : min ((List.replicate l (0 : Byte)).length - 0) (buf.drop off).length = l := by
    simp only [List.length_replicate, List.length_drop]
    omega
  rw [hn]
  simp

/-- Where `offset + length` fits `int64`, `Read` classifies as its checks read:
"bucket does not exist" when the namespace is absent, else "object does not
exist" when the key is absent, else "read exceeds storage capacity" when
`offset < 0` or `offset + length` is past the buffer, else the `length` bytes of
the buffer from `offset` on. -/
theorem read_classification_without_overflow (s : InMemoryBlockStorage) (b k : String)
    (o l : Int) (hfit : SlicesFit s) (hl : 0 ≤ l) (hov : isInt64 (o + l)) :
    (hasBucket s b = false → Read s b k o l = .err .noSuchBucket s) ∧
    (hasBucket s b = true → buffer s b k = none → Read s b k o l = .err .noSuchKey s) ∧
    (∀ buf, buffer s b k = some buf →
      (o < 0 ∨ o + l > (buf.length : Int) → Read s b k o l = .err .readExceeds s) ∧
      (¬ (o < 0 ∨ o + l > (buf.length : Int)) →
        Read s b k o l = .ok ((buf.drop o.toNat).take l.toNat) s ∧
        ((buf.drop o.toNat).take l.toNat).length = l.toNat)) := by
  refine ⟨?_, ?_, ?_⟩
  · intro hb
    unfold hasBucket at hb
    unfold Read
    cases hd : s.data with
    | none => simp [mapGet]
    | some d =>
      simp only [hd] at hb
      cases hm : mapGet d b with
      | none => simp [hm]
      | some ks => simp [hm] at hb
  · intro hb hk
    unfold hasBucket at hb
    unfold buffer at hk
    unfold Read
    cases hd : s.data with
    | none => simp [hd] at hb
    | some d =>
      simp only [hd] at hb hk
      cases hm : mapGet d b with
      | none => simp [hm] at hb
      | some ks =>
        simp only [getBuf, hm] at hk
        simp [hm, hk]
  · intro buf hbuf
    have hlen := length_le_of_buffer hfit hbuf
    have hmax : (maxAlloc : Int) = 2 ^ 48 := by simp [maxAlloc]
    have hbl : ((buf.length : Nat) : Int) ≤ (maxAlloc : Int) := by exact_mod_cast hlen
    rw [Read_of_buffer hbuf, wrap64_of_isInt64 hov]
    constructor
    · intro hc
      rw [if_pos hc]
    · intro hc
      rw [if_neg hc]
      have hmk : makeBytes l = some (List.replicate l.toNat 0) := by
        unfold makeBytes
        rw [if_neg (by omega)]
      rw [hmk]
      simp only
      rw [if_neg (by omega)]
      have hspan : o.toNat + l.toNat ≤ buf.length := by omega
      rw [copyAt_result buf o.toNat l.toNat hspan]
      refine ⟨rfl, ?_⟩
      rw [List.length_take, List.length_drop]
      omega

/-- C7 (the code departs from the claim): on the engine `used`, whose object
`("b", "k")` has a 7-byte buffer, `Read("b", "k", 2^63 - 1, 1)` does not return
the "read exceeds storage capacity" error although `offset + length > 7`: the
sum wraps around in `int64`, the check passes, and the slice expression
`data[offset:]` panics. -/
theorem read_past_buffer_panics_on_overflow :
    buffer used "b" "k" = some [7, 0, 0, 0, 0, 0, 0] ∧
      Read used "b" "k" maxInt64 1 = .panic .sliceBounds used ∧
      maxInt64 + 1 > 7 := by
  decide

end Storage

namespace Storage

/-- `Write` on a key that has a backing buffer goes straight to the bound check
and the copy. -/
theorem Write_of_buffer {s : InMemoryBlockStorage} {b k : String} {buf : List Byte}
    (h : buffer s b k = some buf) (o : Int) (data : List Byte) :
    ∃ d, s.data = some d ∧ Write s b k o data = storeAt s d b k o data buf := by
  unfold buffer at h
  cases hd : s.data with
  | none => simp [hd] at h
  | some d =>
    simp only [hd] at h
    refine ⟨d, rfl, ?_⟩
    unfold Write
    simp only [hd, getBuf_ensureBucket, h, ensureBucket_of_getBuf h]

/-- `Write` on a key without a backing buffer, on a connected engine, when
`make` accepts the remaining capacity: the bound check and the copy run on the
new buffer. -/
theorem Write_of_new_key {s : InMemoryBlockStorage} {d : AddrSpace} {b k : String}
    {buf : List Byte} (hd : s.data = some d) (h : buffer s b k = none)
    (hm : makeBytes (wrap64 (s.totalCapacity - s.allocated)) = some buf) (o : Int)
    (data : List Byte) :
    Write s b k o data = storeAt s (setBuf (ensureBucket d b) b k buf) b k o data buf := by
  unfold buffer at h
  simp only [hd] at h
  unfold Write
  simp only [hd, getBuf_ensureBucket, h, hm]

/-- Where `offset + len(data)` fits `int64`, `Write` on a connected engine
returns an error exactly when `offset < 0` or `offset + len(data)` is past the
buffer it works on (the existing one, or the new one that `make` returned), and
returns nil otherwise. -/
theorem write_error_iff_without_overflow (s : InMemoryBlockStorage) (b k : String) (o : Int)
    (data buf : List Byte)
    (hsrc : buffer s b k = some buf ∨
      (s.data ≠ none ∧ buffer s b k = none ∧
        makeBytes (wrap64 (s.totalCapacity - s.allocated)) = some buf))
    (hov : isInt64 (o + (data.length : Int))) :
    ((∃ s', Write s b k o data = .err .writeExceeds s') ↔
        (o < 0 ∨ o + (data.length : Int) > (buf.length : Int))) ∧
      ((∃ s', Write s b k o data = .ok () s') ↔
        ¬ (o < 0 ∨ o + (data.length : Int) > (buf.length : Int))) := by
  have hst : ∃ d, Write s b k o data = storeAt s d b k o data buf := by
    rcases hsrc with hex | ⟨hc, hno, hm⟩
    · obtain ⟨d, _, hw⟩ := Write_of_buffer hex o data
      exact ⟨d, hw⟩
    · cases hd : s.data with
      | none => exact absurd hd hc
      | some d => exact ⟨_, Write_of_new_key hd hno hm o data⟩
  obtain ⟨d, hw⟩ := hst
  rw [hw]
  unfold storeAt
  rw [wrap64_of_isInt64 hov]
  by_cases hc : o < 0 ∨ o + (data.length : Int) > (buf.length : Int)
  · rw [if_pos hc]
    simp [hc]
  · rw [if_neg hc, if_neg (by omega)]
    simp [hc]

/-- C8 (the code departs from the claim): on the engine just connected with
capacity 10, `Write("b", "k", 2^63 - 1, [0])` does not return an error although
`offset + len(data) > 10 = totalCapacity - allocated`: the sum wraps around in
`int64`, the check passes, and the slice expression `buffer[offset:]` panics,
after the 10-byte buffer has been created. -/
theorem write_past_buffer_panics_on_overflow :
    Write ⟨10, 0, some []⟩ "b" "k" maxInt64 [0]
        = .panic .sliceBounds ⟨10, 0, some [("b", [("k", [0, 0, 0, 0, 0, 0, 0, 0, 0, 0])])]⟩ ∧
      maxInt64 + (([0] : List Byte).length : Int) > 10 - 0 := by
  decide

/-- C10 (the code departs from the claim): three calls that panic in states
reached from `Connect(10)` on the zero-valued struct.  On the engine `used`, a
`Write` to the existing key at offset `2^63 - 1` and a `Read` of it at offset
`2^63 - 1` both pass their bound check by wrap-around and panic in the slice
expression.  After `AllocateBlockStorageCapacity(1, _)` and
`AllocateBlockStorageCapacity(2^63 - 1, _)` the ledger holds
`allocated = -2^63`, and the first `Write` to a new key panics in `make`, whose
length `totalCapacity - allocated` has wrapped around to a negative value. -/
theorem calls_panic_in_reachable_states :
    Connect fresh 10 = .ok () ⟨10, 0, some []⟩ ∧
      runCalls ⟨10, 0, some []⟩ [.allocate 3 "object_metadata", .write "b" "k" 0 [7]] = used ∧
      Write used "b" "k" maxInt64 [1] = .panic .sliceBounds used ∧
      Read used "b" "k" maxInt64 1 = .panic .sliceBounds used ∧
      Write (runCalls ⟨10, 0, some []⟩ [.allocate 1 "a", .allocate maxInt64 "b"]) "b" "k" 0 []
        = .panic .makesliceLen ⟨10, -(2 ^ 63), some [("b", [])]⟩ := by
  decide

end Storage

namespace Storage

/-! ## What the ledger invariant rests on -/

/-- `Write` never assigns the ledger, however it ends. -/
theorem Write_ledger (s : InMemoryBlockStorage) (b k : String) (o : Int) (data : List Byte) :
    (Write s b k o data).state.totalCapacity = s.totalCapacity ∧
      (Write s b k o data).state.allocated = s.allocated := by
  have hst : ∀ d buf, (storeAt s d b k o data buf).state.totalCapacity = s.totalCapacity ∧
      (storeAt s d b k o data buf).state.allocated = s.allocated := by
    intro d buf
    unfold storeAt
    split_ifs <;> exact ⟨rfl, rfl⟩
  unfold Write
  cases hd : s.data with
  | none => exact ⟨rfl, rfl⟩
  | some d =>
    simp only
    cases hg : getBuf (ensureBucket d b) b k with
    | some buf => exact hst _ _
    | none =>
      simp only
      cases hm : makeBytes (wrap64 (s.totalCapacity - s.allocated)) with
      | none => exact ⟨rfl, rfl⟩
      | some buf => exact hst _ _

/-- No call of the engine other than `Connect` assigns `totalCapacity`. -/
theorem step_totalCapacity (s : InMemoryBlockStorage) (c : Call) :
    (c.step s).totalCapacity = s.totalCapacity := by
  cases c with
  | allocate size purpose =>
    simp only [Call.step, AllocateBlockStorageCapacity]
    split <;> rfl
  | write b k o data => exact (Write_ledger s b k o data).1
  | read b k o l => simp only [Call.step, Read_state]

/-- After any sequence of calls `totalCapacity` is what it was. -/
theorem runCalls_totalCapacity (calls : List Call) (s : InMemoryBlockStorage) :
    (runCalls s calls).totalCapacity = s.totalCapacity := by
  induction calls generalizing s with
  | nil => rfl
  | cons c cs ih =>
    simp only [runCalls, List.foldl_cons] at ih ⊢
    rw [ih (c.step s), step_totalCapacity]

/-- One call keeps `0 <= allocated <= totalCapacity` as long as the sum
`allocated + size` of an allocation fits `int64`. -/
theorem step_keeps_ledger_without_overflow (s : InMemoryBlockStorage) (c : Call)
    (hinv : 0 ≤ s.allocated ∧ s.allocated ≤ s.totalCapacity)
    (hov : ∀ size purpose, c = .allocate size purpose → isInt64 (s.allocated + size)) :
    0 ≤ (c.step s).allocated ∧ (c.step s).allocated ≤ (c.step s).totalCapacity := by
  cases c with
  | allocate size purpose =>
    have hfit := hov size purpose rfl
    have h := allocate_without_overflow s size purpose hfit
    by_cases hc : 0 < size ∧ s.allocated + size ≤ s.totalCapacity
    · simp only [Call.step, h.1 hc, Outcome.state]
      omega
    · simp only [Call.step, h.2 hc, Outcome.state]
      exact hinv
  | write b k o data =>
    simp only [Call.step, (Write_ledger s b k o data).1, (Write_ledger s b k o data).2]
    exact hinv
  | read b k o l =>
    simp only [Call.step, Read_state]
    exact hinv

end Storage

namespace Storage

/-! ## Every reachable state holds only slices that fit -/

/-- An entry of a map after an assignment is an old entry or the new one. -/
theorem mem_mapSet {α : Type} {m : List (String × α)} {k : String} {v : α} {kv : String × α}
    (h : kv ∈ mapSet m k v) : kv ∈ m ∨ kv = (k, v) := by
  induction m with
  | nil =>
    simp only [mapSet, List.mem_singleton] at h
    exact Or.inr h
  | cons e t ih =>
    obtain ⟨k0, v0⟩ := e
    by_cases h0 : k0 = k
    · simp only [mapSet, h0, if_true, List.mem_cons] at h
      rcases h with h | h
      · exact Or.inr h
      · exact Or.inl (List.mem_cons_of_mem _ h)
    · simp only [mapSet, h0, if_false, List.mem_cons] at h
      rcases h with h | h
      · exact Or.inl (by rw [h]; exact List.mem_cons_self _ _)
      · rcases ih h with h | h
        · exact Or.inl (List.mem_cons_of_mem _ h)
        · exact Or.inr h

/-- Creating a namespace keeps the bound. -/
theorem AddrFit_ensureBucket {d : AddrSpace} (h : AddrFit d) (b : String) :
    AddrFit (ensureBucket d b) := by
  unfold ensureBucket
  cases hb : mapGet d b with
  | some ks => exact h
  | none =>
    intro ns hns kv hkv
    rcases mem_mapSet hns with hold | hnew
    · exact h ns hold kv hkv
    · rw [hnew] at hkv
      simp at hkv

/-- Assigning a buffer that fits keeps the bound. -/
theorem AddrFit_setBuf {d : AddrSpace} (h : AddrFit d) (b k : String) {buf : List Byte}
    (hbuf : buf.length ≤ maxAlloc) : AddrFit (setBuf d b k buf) := by
  intro ns hns kv hkv
  unfold setBuf at hns
  rcases mem_mapSet hns with hold | hnew
  · exact h ns hold kv hkv
  · rw [hnew] at hkv
    rcases mem_mapSet hkv with hk | hk
    · cases hb : mapGet d b with
      | none => simp [hb] at hk
      | some ks =>
        simp only [hb, Option.getD_some] at hk
        exact h (b, ks) (mem_of_mapGet hb) kv hk
    · rw [hk]
      exact hbuf

/-- A buffer that can be read from an address space within the bound fits. -/
theorem length_le_of_getBuf {d : AddrSpace} (h : AddrFit d) {b k : String} {buf : List Byte}
    (hg : getBuf d b k = some buf) : buf.length ≤ maxAlloc := by
  unfold getBuf at hg
  cases hb : mapGet d b with
  | none => simp [hb] at hg
  | some ks =>
    simp only [hb] at hg
    exact h (b, ks) (mem_of_mapGet hb) (k, buf) (mem_of_mapGet hg)

/-- Lines 62-67 of `Write` keep the bound, however they end. -/
theorem AddrFit_storeAt {s : InMemoryBlockStorage} {d : AddrSpace} (h : AddrFit d)
    (b k : String) (o : Int) (data : List Byte) {buf : List Byte} (hbuf : buf.length ≤ maxAlloc) :
    SlicesFit (storeAt s d b k o data buf).state := by
  unfold storeAt
  split_ifs with h1 h2
  · exact h
  · exact h
  · have hl : (copyAt buf o.toNat data).length = buf.length :=
      length_copyAt _ _ _ (by omega)
    exact AddrFit_setBuf h b k (by rw [hl]; exact hbuf)

/-- `Write` keeps the bound, however it ends. -/
theorem SlicesFit_Write {s : InMemoryBlockStorage} (h : SlicesFit s) (b k : String) (o : Int)
    (data : List Byte) : SlicesFit (Write s b k o data).state := by
  unfold Write
  cases hd : s.data with
  | none =>
    simp only [Outcome.state]
    exact h
  | some d =>
    have hfit : AddrFit d := by
      unfold SlicesFit at h
      rw [hd] at h
      exact h
    have h1 := AddrFit_ensureBucket hfit b
    simp only
    cases hg : getBuf (ensureBucket d b) b k with
    | some buf => exact AddrFit_storeAt h1 b k o data (length_le_of_getBuf h1 hg)
    | none =>
      simp only
      cases hm : makeBytes (wrap64 (s.totalCapacity - s.allocated)) with
      | none => exact h1
      | some buf =>
        have hbuf : buf.length ≤ maxAlloc := by
          obtain ⟨_, hle, rfl⟩ := makeBytes_eq_some hm
          rw [List.length_replicate]
          omega
        exact AddrFit_storeAt (AddrFit_setBuf h1 b k hbuf) b k o data hbuf

/-- Every call keeps the bound. -/
theorem SlicesFit_step {s : InMemoryBlockStorage} (h : SlicesFit s) (c : Call) :
    SlicesFit (c.step s) := by
  cases c with
  | allocate size purpose =>
    simp only [Call.step, AllocateBlockStorageCapacity]
    split <;> exact h
  | write b k o data => exact SlicesFit_Write h b k o data
  | read b k o l =>
    simp only [Call.step, Read_state]
    exact h

/-- Every state reached from a successful `Connect` by calls of the engine holds
only buffers that fit, so the size hypotheses of the round-trip and write-effect
theorems hold in all of them. -/
theorem SlicesFit_of_reachable (s0 s : InMemoryBlockStorage) (capacity : Int)
    (hc : Connect s0 capacity = .ok () s) (calls : List Call) :
    SlicesFit (runCalls s calls) := by
  have hs : SlicesFit s := by
    unfold Connect at hc
    split_ifs at hc
    simp only [Outcome.ok.injEq, true_and] at hc
    subst hc
    intro ns hns
    simp at hns
  clear hc
  induction calls generalizing s with
  | nil => exact hs
  | cons c cs ih =>
    simp only [runCalls, List.foldl_cons] at ih ⊢
    exact ih (c.step s) (SlicesFit_step hs c)

end Storage

namespace Storage

/-! ## Buffers under every outcome of a Write -/

/-- The buffers after lines 62-67 of `Write`, however they end: the buffer of
`(b, k)` keeps its length, and every other buffer is as in the map `d`. -/
theorem buffer_storeAt (s : InMemoryBlockStorage) (d : AddrSpace) (b k : String) (o : Int)
    (data bufk : List Byte) (hk : getBuf d b k = some bufk) (b' k' : String) :
    ∃ nb, nb.length = bufk.length ∧
      buffer (storeAt s d b k o data bufk).state b' k' =
        if b = b' ∧ k = k' then some nb else getBuf d b' k' := by
  have hsame : ∀ st : InMemoryBlockStorage, st.data = some d →
      buffer st b' k' = if b = b' ∧ k = k' then some bufk else getBuf d b' k' := by
    intro st hst
    simp only [buffer, hst]
    by_cases hc : b = b' ∧ k = k'
    · rw [if_pos hc]
      obtain ⟨rfl, rfl⟩ := hc
      exact hk
    · rw [if_neg hc]
  unfold storeAt
  by_cases h1 : o < 0 ∨ wrap64 (o + (data.length : Int)) > (bufk.length : Int)
  · rw [if_pos h1]
    exact ⟨bufk, rfl, hsame _ rfl⟩
  · rw [if_neg h1]
    by_cases h2 : o > (bufk.length : Int)
    · rw [if_pos h2]
      exact ⟨bufk, rfl, hsame _ rfl⟩
    · rw [if_neg h2]
      refine ⟨copyAt bufk o.toNat data, length_copyAt _ _ _ (by omega), ?_⟩
      simp only [Outcome.state, buffer, getBuf_setBuf]

/-- Frame of `Write`, however it ends: every backing buffer other than that of
`(b, k)` exists afterwards exactly when it existed before, with the same bytes. -/
theorem Write_frame (s : InMemoryBlockStorage) (b k : String) (o : Int) (data : List Byte)
    (b' k' : String) (hne : ¬ (b = b' ∧ k = k')) :
    buffer (Write s b k o data).state b' k' = buffer s b' k' := by
  unfold Write
  cases hd : s.data with
  | none => simp only [Outcome.state]
  | some d =>
    simp only
    cases hg : getBuf (ensureBucket d b) b k with
    | some bufk =>
      obtain ⟨nb, _, hb⟩ := buffer_storeAt s (ensureBucket d b) b k o data bufk hg b' k'
      simp only
      rw [hb, if_neg hne, getBuf_ensureBucket]
      simp only [buffer, hd]
    | none =>
      simp only
      cases hm : makeBytes (wrap64 (s.totalCapacity - s.allocated)) with
      | none =>
        simp only [Outcome.state, buffer, getBuf_ensureBucket, hd]
      | some nb0 =>
        have hk : getBuf (setBuf (ensureBucket d b) b k nb0) b k = some nb0 := by
          rw [getBuf_setBuf]; simp
        obtain ⟨nb, _, hb⟩ :=
          buffer_storeAt s (setBuf (ensureBucket d b) b k nb0) b k o data nb0 hk b' k'
        simp only
        rw [hb, if_neg hne, getBuf_setBuf, if_neg hne, getBuf_ensureBucket]
        simp only [buffer, hd]

/-- The buffer of `(b, k)` after a `Write(b, k, ...)`, however it ends: an
existing buffer keeps its length. -/
theorem Write_keeps_length (s : InMemoryBlockStorage) (b k : String) (o : Int)
    (data : List Byte) {buf : List Byte} (h : buffer s b k = some buf) :
    ∃ nb, nb.length = buf.length ∧ buffer (Write s b k o data).state b k = some nb := by
  obtain ⟨d, hd, hw⟩ := Write_of_buffer h o data
  have hk : getBuf d b k = some buf := by
    simpa [buffer, hd] using h
  obtain ⟨nb, hl, hb⟩ := buffer_storeAt s d b k o data buf hk b k
  refine ⟨nb, hl, ?_⟩
  rw [hw, hb]
  simp

/-- The buffer of `(b, k)` after a first `Write(b, k, ...)`, however it ends:
when the key had no buffer and has one afterwards, `make` returned it, so it has
`s.totalCapacity-s.allocated` bytes in `int64` arithmetic. -/
theorem Write_first_touch (s : InMemoryBlockStorage) (b k : String) (o : Int)
    (data : List Byte) {buf : List Byte} (hno : buffer s b k = none)
    (h : buffer (Write s b k o data).state b k = some buf) :
    0 ≤ wrap64 (s.totalCapacity - s.allocated) ∧
      wrap64 (s.totalCapacity - s.allocated) ≤ (maxAlloc : Int) ∧
      (buf.length : Int) = wrap64 (s.totalCapacity - s.allocated) := by
  unfold Write at h
  cases hd : s.data with
  | none =>
    simp only [hd, Outcome.state] at h
    rw [hno] at h
    exact absurd h (by simp)
  | some d =>
    have hg : getBuf (ensureBucket d b) b k = none := by
      rw [getBuf_ensureBucket]
      simpa [buffer, hd] using hno
    simp only [hd, hg] at h
    cases hm : makeBytes (wrap64 (s.totalCapacity - s.allocated)) with
    | none =>
      simp only [hm, Outcome.state, buffer, hg] at h
      exact absurd h (by simp)
    | some nb0 =>
      simp only [hm] at h
      have hk : getBuf (setBuf (ensureBucket d b) b k nb0) b k = some nb0 := by
        rw [getBuf_setBuf]; simp
      obtain ⟨nb, hl, hb⟩ :=
        buffer_storeAt s (setBuf (ensureBucket d b) b k nb0) b k o data nb0 hk b k
      rw [hb] at h
      simp only [and_self, if_true, Option.some.injEq] at h
      subst h
      obtain ⟨h0, h1, rfl⟩ := makeBytes_eq_some hm
      refine ⟨h0, h1, ?_⟩
      rw [hl, List.length_replicate]
      omega

/-- On an engine whose counters hold `int64` values and whose capacity is
positive, a length that `make` accepts for a new buffer is the integer
`totalCapacity - allocated`: the subtraction did not wrap around. -/
theorem remaining_without_wrap {s : InMemoryBlockStorage} (hpos : 0 < s.totalCapacity)
    (ht : isInt64 s.totalCapacity) (ha : isInt64 s.allocated)
    (h0 : 0 ≤ wrap64 (s.totalCapacity - s.allocated)) :
    wrap64 (s.totalCapacity - s.allocated) = s.totalCapacity - s.allocated := by
  unfold isInt64 at ht ha
  unfold wrap64 at h0 ⊢
  omega

/-- Every call keeps the length of every existing backing buffer. -/
theorem step_keeps_length (s : InMemoryBlockStorage) (c : Call) {b k : String}
    {buf : List Byte} (h : buffer s b k = some buf) :
    ∃ nb, nb.length = buf.length ∧ buffer (c.step s) b k = some nb := by
  cases c with
  | allocate size purpose =>
    refine ⟨buf, rfl, ?_⟩
    simp only [Call.step, AllocateBlockStorageCapacity]
    split <;> exact h
  | write b' k' o data =>
    by_cases hc : b' = b ∧ k' = k
    · obtain ⟨rfl, rfl⟩ := hc
      exact Write_keeps_length s b' k' o data h
    · exact ⟨buf, rfl, by simp only [Call.step]; rw [Write_frame s b' k' o data b k hc, h]⟩
  | read b' k' o l =>
    exact ⟨buf, rfl, by simp only [Call.step, Read_state]; exact h⟩

/-- Every sequence of calls keeps the length of every existing backing buffer. -/
theorem runCalls_keeps_length (calls : List Call) (s : InMemoryBlockStorage) {b k : String}
    {buf : List Byte} (h : buffer s b k = some buf) :
    ∃ nb, nb.length = buf.length ∧ buffer (runCalls s calls) b k = some nb := by
  induction calls generalizing s buf with
  | nil => exact ⟨buf, rfl, h⟩
  | cons c cs ih =>
    obtain ⟨nb1, hl1, hb1⟩ := step_keeps_length s c h
    obtain ⟨nb, hl, hb⟩ := ih (c.step s) hb1
    exact ⟨nb, by rw [hl, hl1], by simpa [runCalls] using hb⟩

end Storage

namespace Storage

/-! ## First touch, frame and the end-to-end scenario -/

/-- `Write` never sets the map back to nil. -/
theorem Write_data_ne_none (s : InMemoryBlockStorage) (b k : String) (o : Int)
    (data : List Byte) (h : s.data ≠ none) : (Write s b k o data).state.data ≠ none := by
  have hst : ∀ d buf, (storeAt s d b k o data buf).state.data ≠ none := by
    intro d buf
    unfold storeAt
    split_ifs <;> simp [Outcome.state]
  unfold Write
  cases hd : s.data with
  | none => exact absurd hd h
  | some d =>
    simp only
    cases hg : getBuf (ensureBucket d b) b k with
    | some buf => exact hst _ _
    | none =>
      simp only
      cases hm : makeBytes (wrap64 (s.totalCapacity - s.allocated)) with
      | none => simp [Outcome.state]
      | some buf => exact hst _ _

/-- Every call keeps an engine connected. -/
theorem Connected_step {s : InMemoryBlockStorage} (h : Connected s) (c : Call) :
    Connected (c.step s) := by
  obtain ⟨hd, hpos, ht, ha⟩ := h
  cases c with
  | allocate size purpose =>
    simp only [Call.step, AllocateBlockStorageCapacity]
    split
    · exact ⟨hd, hpos, ht, ha⟩
    · exact ⟨hd, hpos, ht, isInt64_wrap64 _⟩
  | write b k o data =>
    refine ⟨Write_data_ne_none s b k o data hd, ?_, ?_, ?_⟩
    · simp only [Call.step, (Write_ledger s b k o data).1]; exact hpos
    · simp only [Call.step, (Write_ledger s b k o data).1]; exact ht
    · simp only [Call.step, (Write_ledger s b k o data).2]; exact ha
  | read b k o l =>
    simp only [Call.step, Read_state]
    exact ⟨hd, hpos, ht, ha⟩

/-- Every state reached from a successful `Connect` with an `int64` capacity, on
an engine whose `allocated` is an `int64`, is connected. -/
theorem Connected_of_reachable (s0 s : InMemoryBlockStorage) (capacity : Int)
    (hcap : isInt64 capacity) (ha : isInt64 s0.allocated)
    (hc : Connect s0 capacity = .ok () s) (calls : List Call) :
    Connected (runCalls s calls) := by
  have hs : Connected s := by
    unfold Connect at hc
    split_ifs at hc with h0
    simp only [Outcome.ok.injEq, true_and] at hc
    subst hc
    exact ⟨by simp, by simpa using h0, hcap, ha⟩
  clear hc
  induction calls generalizing s with
  | nil => exact hs
  | cons c cs ih =>
    simp only [runCalls, List.foldl_cons] at ih ⊢
    exact ih (c.step s) (Connected_step hs c)

/-- C11: backing buffer size is fixed at first touch.  On a connected engine,
when `Write(b, k, ...)` references a key that has no buffer and the call leaves
a buffer for it (whether the call then returns nil or the write error), that
buffer has `totalCapacity - allocated` bytes, measured at that call; and after
every further sequence of `AllocateBlockStorageCapacity`, `Write` and `Read`
calls, however each ends, the key still has a buffer of that length. -/
theorem buffer_size_fixed_at_first_touch (s : InMemoryBlockStorage) (b k : String) (o : Int)
    (data buf : List Byte) (hc : Connected s) (hno : buffer s b k = none)
    (h : buffer (Write s b k o data).state b k = some buf) :
    (buf.length : Int) = s.totalCapacity - s.allocated ∧
      ∀ calls : List Call, ∃ nb,
        buffer (runCalls (Write s b k o data).state calls) b k = some nb ∧
        nb.length = buf.length := by
  obtain ⟨_, hpos, ht, ha⟩ := hc
  obtain ⟨h0, _, hl⟩ := Write_first_touch s b k o data hno h
  refine ⟨by rw [hl, remaining_without_wrap hpos ht ha h0], ?_⟩
  intro calls
  obtain ⟨nb, hnl, hnb⟩ := runCalls_keeps_length calls (Write s b k o data).state h
  exact ⟨nb, hnb, hnl⟩

/-- Witness for C11: the first `Write("b", "q", 1, [5, 6])` on the engine `used`
creates a buffer of `10 - 3 = 7` bytes. -/
theorem buffer_size_fixed_at_first_touch_witness :
    Connected used ∧ buffer used "b" "q" = none ∧
      buffer (Write used "b" "q" 1 [5, 6]).state "b" "q" = some [0, 5, 6, 0, 0, 0, 0] ∧
      ((([0, 5, 6, 0, 0, 0, 0] : List Byte).length : Int)
          = used.totalCapacity - used.allocated ∧
        ∀ calls : List Call, ∃ nb,
          buffer (runCalls (Write used "b" "q" 1 [5, 6]).state calls) "b" "q" = some nb ∧
          nb.length = ([0, 5, 6, 0, 0, 0, 0] : List Byte).length) :=
  ⟨by decide, by decide, by decide,
    buffer_size_fixed_at_first_touch used "b" "q" 1 [5, 6] [0, 5, 6, 0, 0, 0, 0]
      (by decide) (by decide) (by decide)⟩

/-- C15: writes and reads do not touch the ledger or other objects.  For every
engine state and every `Write(b, k, ...)`, however it ends (nil, error or
panic), `totalCapacity` and `allocated` are unchanged and every backing buffer
other than that of `(b, k)` exists afterwards exactly when it existed before,
with the same length and bytes; and every `Read`, however it ends, leaves the
whole state, so every buffer, unchanged. -/
theorem write_and_read_frame (s : InMemoryBlockStorage) (b k : String) (o l : Int)
    (data : List Byte) :
    (Write s b k o data).state.totalCapacity = s.totalCapacity ∧
      (Write s b k o data).state.allocated = s.allocated ∧
      (∀ b' k', ¬ (b = b' ∧ k = k') →
        buffer (Write s b k o data).state b' k' = buffer s b' k') ∧
      (Read s b k o l).state = s :=
  ⟨(Write_ledger s b k o data).1, (Write_ledger s b k o data).2,
    fun b' k' hne => Write_frame s b k o data b' k' hne, Read_state s b k o l⟩

/-- Witness for C15: `Write("b", "q", 1, [5, 6])` on the engine `used` leaves the
buffer of `("b", "k")` as it was. -/
theorem write_and_read_frame_witness :
    ¬ ("b" = "b" ∧ "q" = "k") ∧
      buffer (Write used "b" "q" 1 [5, 6]).state "b" "k" = buffer used "b" "k" :=
  ⟨by decide, (write_and_read_frame used "b" "q" 1 0 [5, 6]).2.2.1 "b" "k" (by decide)⟩

/-- C16: the end-to-end scenario, for every 10-byte sequence `d`.  On the
zero-valued engine `Connect(1024)` succeeds; `Write("buckets", "alpha", 0, d)`
returns nil and has created the backing buffer, of 1024 bytes;
`Read("buckets", "alpha", 0, 10)` returns exactly `d`; and
`Read("buckets", "alpha", 1024, 1)` returns the "read exceeds storage capacity"
error. -/
theorem end_to_end_scenario (d : List Byte) (hd : d.length = 10) :
    ∃ s1 s2 buf, Connect fresh 1024 = .ok () s1 ∧
      buffer s1 "buckets" "alpha" = none ∧
      Write s1 "buckets" "alpha" 0 d = .ok () s2 ∧
      buffer s2 "buckets" "alpha" = some buf ∧ buf.length = 1024 ∧
      Read s2 "buckets" "alpha" 0 10 = .ok d s2 ∧
      Read s2 "buckets" "alpha" 1024 1 = .err .readExceeds s2 := by
  have hmk : makeBytes (wrap64 ((1024 : Int) - 0)) = some (List.replicate 1024 0) := by
    have hw : wrap64 ((1024 : Int) - 0) = 1024 := by decide
    rw [hw]
    unfold makeBytes
    rw [if_neg (by simp [maxAlloc])]
    rfl
  have hm10 : makeBytes 10 = some (List.replicate 10 0) := by decide
  have hwrite : Write ⟨1024, 0, some []⟩ "buckets" "alpha" 0 d
      = storeAt ⟨1024, 0, some []⟩
          (setBuf (ensureBucket [] "buckets") "buckets" "alpha" (List.replicate 1024 0))
          "buckets" "alpha" 0 d (List.replicate 1024 0) :=
    Write_of_new_key (by rfl) (by rfl) hmk 0 d
  have hlen : (copyAt (List.replicate 1024 (0 : Byte)) (0 : Int).toNat d).length = 1024 := by
    rw [length_copyAt _ _ (Int.toNat 0) (Nat.zero_le _), List.length_replicate]
  have hb : buffer (⟨1024, 0, some (setBuf (setBuf (ensureBucket [] "buckets") "buckets"
      "alpha" (List.replicate 1024 0)) "buckets" "alpha"
      (copyAt (List.replicate 1024 0) (0 : Int).toNat d))⟩ : InMemoryBlockStorage)
      "buckets" "alpha" = some (copyAt (List.replicate 1024 0) (0 : Int).toNat d) := by
    simp only [buffer, getBuf_setBuf, and_self, if_true]
  refine ⟨⟨1024, 0, some []⟩,
    ⟨1024, 0, some (setBuf (setBuf (ensureBucket [] "buckets") "buckets"
      "alpha" (List.replicate 1024 0)) "buckets" "alpha"
      (copyAt (List.replicate 1024 0) (0 : Int).toNat d))⟩,
    copyAt (List.replicate 1024 0) (0 : Int).toNat d, by decide, rfl, ?_, hb, hlen, ?_, ?_⟩
  · have h1 : ¬ ((0 : Int) < 0 ∨ wrap64 (0 + ((10 : Nat) : Int)) > ((1024 : Nat) : Int)) := by
      decide
    have h2 : ¬ ((0 : Int) > ((1024 : Nat) : Int)) := by decide
    rw [hwrite]
    unfold storeAt
    rw [hd, List.length_replicate, if_neg h1, if_neg h2]
  · have h1 : ¬ ((0 : Int) < 0 ∨ wrap64 (0 + 10) > ((1024 : Nat) : Int)) := by decide
    have h2 : ¬ ((0 : Int) > ((1024 : Nat) : Int)) := by decide
    rw [Read_of_buffer hb, hlen, if_neg h1, hm10]
    simp only
    rw [if_neg h2]
    have hfits : (0 : Int).toNat + d.length ≤ (List.replicate 1024 (0 : Byte)).length := by
      rw [hd, List.length_replicate]
      decide
    have hrb := readBack_copyAt (List.replicate 1024 0) d (0 : Int).toNat hfits
    rw [hd] at hrb
    rw [hrb]
  · have h1 : (1024 : Int) < 0 ∨ wrap64 (1024 + 1) > ((1024 : Nat) : Int) := by decide
    rw [Read_of_buffer hb, hlen, if_pos h1]

/-- Witness for C16: the scenario with the ten bytes 1 to 10. -/
theorem end_to_end_scenario_witness :
    ([1, 2, 3, 4, 5, 6, 7, 8, 9, 10] : List Byte).length = 10 ∧
      ∃ s1 s2 buf, Connect fresh 1024 = .ok () s1 ∧
        buffer s1 "buckets" "alpha" = none ∧
        Write s1 "buckets" "alpha" 0 [1, 2, 3, 4, 5, 6, 7, 8, 9, 10] = .ok () s2 ∧
        buffer s2 "buckets" "alpha" = some buf ∧ buf.length = 1024 ∧
        Read s2 "buckets" "alpha" 0 10 = .ok [1, 2, 3, 4, 5, 6, 7, 8, 9, 10] s2 ∧
        Read s2 "buckets" "alpha" 1024 1 = .err .readExceeds s2 :=
  ⟨by decide, end_to_end_scenario [1, 2, 3, 4, 5, 6, 7, 8, 9, 10] (by decide)⟩

end Storage

namespace Storage

/-! ## Sequences of allocations -/

/-- The state after a sequence of allocation requests whose first is `r`. -/
theorem runCalls_allocateCalls_cons (s : InMemoryBlockStorage) (r : Int × String)
    (rest : List (Int × String)) :
    runCalls s (allocateCalls (r :: rest))
      = runCalls (AllocateBlockStorageCapacity s r.1 r.2).state (allocateCalls rest) := by
  simp only [runCalls, allocateCalls, List.map_cons, List.foldl_cons, Call.step]

/-- Where no sum `allocated + size` can leave `int64` (every requested size is an
`int64` of at most `2^63 - 1 - totalCapacity`), the sizes that were accepted add
up to the growth of `allocated`, which stays within `[0, totalCapacity]`: the
accepted sizes never exceed the capacity. -/
theorem succeededSum_without_overflow (reqs : List (Int × String)) (s : InMemoryBlockStorage)
    (ht : isInt64 s.totalCapacity) (h0 : 0 ≤ s.allocated) (hle : s.allocated ≤ s.totalCapacity)
    (hsz : ∀ r ∈ reqs, isInt64 r.1 ∧ r.1 ≤ maxInt64 - s.totalCapacity) :
    s.allocated + succeededSum s reqs = (runCalls s (allocateCalls reqs)).allocated ∧
      0 ≤ (runCalls s (allocateCalls reqs)).allocated ∧
      (runCalls s (allocateCalls reqs)).allocated ≤ s.totalCapacity := by
  induction reqs generalizing s with
  | nil => simp [succeededSum, allocateCalls, runCalls, h0, hle]
  | cons r rest ih =>
    obtain ⟨hr64, hrle⟩ := hsz r (List.mem_cons_self _ _)
    have hrest : ∀ r' ∈ rest, isInt64 r'.1 ∧ r'.1 ≤ maxInt64 - s.totalCapacity :=
      fun r' hr' => hsz r' (List.mem_cons_of_mem _ hr')
    have hfit : isInt64 (s.allocated + r.1) := by
      unfold isInt64 at hr64 ht ⊢
      unfold maxInt64 at hrle
      omega
    have hspec := allocate_without_overflow s r.1 r.2 hfit
    rw [runCalls_allocateCalls_cons]
    by_cases hc : 0 < r.1 ∧ s.allocated + r.1 ≤ s.totalCapacity
    · have hok := hspec.1 hc
      have hih := ih { s with allocated := s.allocated + r.1 } ht (by simp only; omega)
        (by simp only; omega) hrest
      simp only [succeededSum, hok, Outcome.state] at hih ⊢
      omega
    · have herr := hspec.2 hc
      have hih := ih s ht h0 hle hrest
      simp only [succeededSum, herr, Outcome.state] at hih ⊢
      exact hih

/-- C12 (the code departs from the claim): after `Connect(10)` on the
zero-valued struct, the requests for 1 byte and for `2^63 - 1` bytes are both
accepted, so the accepted sizes add up to `2^63`, far above the capacity 10; the
second request, which pushes the sum above the capacity, does not fail. -/
theorem accepted_sizes_exceed_capacity_on_overflow :
    Connect fresh 10 = .ok () ⟨10, 0, some []⟩ ∧
      allSucceed ⟨10, 0, some []⟩ [(1, "a"), (maxInt64, "b")] = true ∧
      succeededSum ⟨10, 0, some []⟩ [(1, "a"), (maxInt64, "b")] = 2 ^ 63 ∧
      (2 ^ 63 : Int) > 10 := by
  decide

/-- A sum of positive sizes is not negative. -/
theorem sum_sizes_nonneg (reqs : List (Int × String)) (hpos : ∀ r ∈ reqs, 0 < r.1) :
    0 ≤ (reqs.map Prod.fst).sum := by
  induction reqs with
  | nil => simp
  | cons r rest ih =>
    have h1 := hpos r (List.mem_cons_self _ _)
    have h2 := ih (fun r' hr' => hpos r' (List.mem_cons_of_mem _ hr'))
    simp only [List.map_cons, List.sum_cons]
    omega

/-- Positive requests that add up to exactly the remaining capacity are all
accepted, in the order given, and fill the ledger. -/
theorem exact_fill_in_order (reqs : List (Int × String)) (s : InMemoryBlockStorage)
    (ht : isInt64 s.totalCapacity) (h0 : 0 ≤ s.allocated)
    (hpos : ∀ r ∈ reqs, 0 < r.1)
    (hsum : s.allocated + (reqs.map Prod.fst).sum = s.totalCapacity) :
    allSucceed s reqs = true ∧
      (runCalls s (allocateCalls reqs)).allocated = s.totalCapacity ∧
      (runCalls s (allocateCalls reqs)).totalCapacity = s.totalCapacity := by
  induction reqs generalizing s with
  | nil =>
    simp only [List.map_nil, List.sum_nil, Int.add_zero] at hsum
    simp [allSucceed, allocateCalls, runCalls, hsum]
  | cons r rest ih =>
    have hr := hpos r (List.mem_cons_self _ _)
    have hrest : ∀ r' ∈ rest, 0 < r'.1 := fun r' hr' => hpos r' (List.mem_cons_of_mem _ hr')
    have hnn := sum_sizes_nonneg rest hrest
    simp only [List.map_cons, List.sum_cons] at hsum
    have hfit : isInt64 (s.allocated + r.1) := by
      unfold isInt64 at ht ⊢
      omega
    have hok := (allocate_without_overflow s r.1 r.2 hfit).1 ⟨hr, by omega⟩
    have hih := ih { s with allocated := s.allocated + r.1 } ht (by simp only; omega) hrest
      (by simp only; omega)
    rw [runCalls_allocateCalls_cons]
    simp only [allSucceed, hok, Outcome.state] at hih ⊢
    exact hih

/-- Exact fill below the top of `int64`: for every capacity with
`0 < capacity < 2^63 - 1`, every list of positive sizes that add up to the
capacity and every order of that list, after `Connect(capacity)` on an engine
with `allocated = 0` all requests are accepted, `allocated` ends equal to
`totalCapacity`, and one more request for 1 byte is rejected with the state
untouched. -/
theorem exact_fill_below_max (s0 s : InMemoryBlockStorage) (capacity : Int)
    (reqs reqs' : List (Int × String)) (hcap : capacity < maxInt64) (ha : s0.allocated = 0)
    (hc : Connect s0 capacity = .ok () s) (hpos : ∀ r ∈ reqs, 0 < r.1)
    (hsum : (reqs.map Prod.fst).sum = capacity) (hperm : reqs'.Perm reqs) (purpose : String) :
    allSucceed s reqs' = true ∧
      (runCalls s (allocateCalls reqs')).allocated
        = (runCalls s (allocateCalls reqs')).totalCapacity ∧
      AllocateBlockStorageCapacity (runCalls s (allocateCalls reqs')) 1 purpose
        = .err .invalidAllocation (runCalls s (allocateCalls reqs')) := by
  unfold Connect at hc
  split_ifs at hc with hle
  simp only [Outcome.ok.injEq, true_and] at hc
  subst hc
  have hpos' : ∀ r ∈ reqs', 0 < r.1 := fun r hr => hpos r (hperm.mem_iff.mp hr)
  have hsum' : (reqs'.map Prod.fst).sum = capacity := by
    rw [← hsum]
    exact (hperm.map Prod.fst).sum_eq
  have ht : isInt64 capacity := by
    unfold isInt64
    unfold maxInt64 at hcap
    omega
  obtain ⟨hall, hfin, htot⟩ :=
    exact_fill_in_order reqs' { s0 with totalCapacity := capacity, data := some [] } ht
      (by simp only; omega) hpos' (by simp only; omega)
  simp only at hfin htot
  refine ⟨hall, by rw [hfin, htot], ?_⟩
  have hfit : isInt64 ((runCalls { s0 with totalCapacity := capacity, data := some [] }
      (allocateCalls reqs')).allocated + 1) := by
    rw [hfin]
    unfold isInt64
    unfold maxInt64 at hcap
    omega
  exact (allocate_without_overflow _ 1 purpose hfit).2 (by rw [hfin, htot]; omega)

/-- C13 (the code departs from the claim): after `Connect(2^63 - 1)` on the
zero-valued struct, the single request for `2^63 - 1` bytes is accepted and
fills the ledger (`allocated = totalCapacity`), and one further request for
1 byte is accepted as well: `size+s.allocated` wraps around to `-2^63`, which
is not above the capacity. -/
theorem full_ledger_accepts_one_more_at_max_capacity :
    Connect fresh maxInt64 = .ok () ⟨maxInt64, 0, some []⟩ ∧
      allSucceed ⟨maxInt64, 0, some []⟩ [(maxInt64, "a")] = true ∧
      runCalls ⟨maxInt64, 0, some []⟩ (allocateCalls [(maxInt64, "a")])
        = ⟨maxInt64, maxInt64, some []⟩ ∧
      AllocateBlockStorageCapacity ⟨maxInt64, maxInt64, some []⟩ 1 "object_metadata"
        = .ok () ⟨maxInt64, -(2 ^ 63), some []⟩ := by
  decide

end Storage

namespace Storage

/-! ## Writes beyond the buffer, and buffers beyond the budget -/

/-- A `Write` whose offset lies beyond the existing buffer never returns nil and
never changes the state: it returns the write error, or panics. -/
theorem write_beyond_buffer_keeps_state (s : InMemoryBlockStorage) (b k : String) (o : Int)
    (data buf : List Byte) (hbuf : buffer s b k = some buf) (ho : o > (buf.length : Int)) :
    (Write s b k o data).state = s ∧ ∀ s', Write s b k o data ≠ .ok () s' := by
  obtain ⟨d, hd, hw⟩ := Write_of_buffer hbuf o data
  have hs : ({ s with data := some d } : InMemoryBlockStorage) = s := by
    cases s
    simp only at hd
    subst hd
    rfl
  rw [hw]
  unfold storeAt
  by_cases h1 : o < 0 ∨ wrap64 (o + (data.length : Int)) > (buf.length : Int)
  · rw [if_pos h1]
    exact ⟨hs, fun s' h => by cases h⟩
  · rw [if_neg h1, if_pos ho]
    exact ⟨hs, fun s' h => by cases h⟩

/-- Where `offset + len(data)` fits `int64`, a `Write` whose offset lies beyond
the existing buffer returns the write error and leaves the state untouched. -/
theorem write_beyond_buffer_without_overflow (s : InMemoryBlockStorage) (b k : String)
    (o : Int) (data buf : List Byte) (hbuf : buffer s b k = some buf)
    (ho : o > (buf.length : Int)) (hov : isInt64 (o + (data.length : Int))) :
    Write s b k o data = .err .writeExceeds s := by
  obtain ⟨d, hd, hw⟩ := Write_of_buffer hbuf o data
  have hs : ({ s with data := some d } : InMemoryBlockStorage) = s := by
    cases s
    simp only at hd
    subst hd
    rfl
  rw [hw]
  unfold storeAt
  rw [wrap64_of_isInt64 hov, if_pos (by omega), hs]

/-- C14 (the code departs from the claim): on the engine `used`, whose object
`("b", "k")` has a 7-byte buffer, `Write("b", "k", 2^63 - 2, [1, 2])` has its
offset beyond the buffer but does not return the write error: the sum
`offset+len(data)` wraps around, the check passes, and the slice expression
panics.  The buffer is left as it was. -/
theorem write_beyond_buffer_panics_on_overflow :
    buffer used "b" "k" = some [7, 0, 0, 0, 0, 0, 0] ∧
      maxInt64 - 1 > 7 ∧
      Write used "b" "k" (maxInt64 - 1) [1, 2] = .panic .sliceBounds used := by
  decide

/-- C18: stored data is not bounded by the capacity budget.  After
`Connect(10)` on the zero-valued struct, two successful first writes to the
distinct keys `"k1"` and `"k2"`, with no allocation in between, leave two
10-byte buffers: 20 bytes in all, above `totalCapacity = 10`.  In general, on
every connected engine and whatever buffers its address space already holds,
the buffer that a first `Write` to a key leaves has the full remaining capacity
`totalCapacity - allocated`. -/
theorem buffers_not_bounded_by_capacity :
    (Connect fresh 10 = .ok () ⟨10, 0, some []⟩ ∧
      Write ⟨10, 0, some []⟩ "b" "k1" 0 [1]
        = .ok () ⟨10, 0, some [("b", [("k1", [1, 0, 0, 0, 0, 0, 0, 0, 0, 0])])]⟩ ∧
      Write ⟨10, 0, some [("b", [("k1", [1, 0, 0, 0, 0, 0, 0, 0, 0, 0])])]⟩ "b" "k2" 0 [2]
        = .ok () ⟨10, 0, some [("b", [("k1", [1, 0, 0, 0, 0, 0, 0, 0, 0, 0]),
            ("k2", [2, 0, 0, 0, 0, 0, 0, 0, 0, 0])])]⟩ ∧
      totalBuffered ⟨10, 0, some [("b", [("k1", [1, 0, 0, 0, 0, 0, 0, 0, 0, 0]),
            ("k2", [2, 0, 0, 0, 0, 0, 0, 0, 0, 0])])]⟩ = 20 ∧
      ((20 : Nat) : Int) > 10) ∧
    (∀ (s : InMemoryBlockStorage) (b k : String) (o : Int) (data buf : List Byte),
      Connected s → buffer s b k = none →
      buffer (Write s b k o data).state b k = some buf →
      (buf.length : Int) = s.totalCapacity - s.allocated) := by
  refine ⟨by decide, ?_⟩
  intro s b k o data buf hc hno h
  obtain ⟨_, hpos, ht, ha⟩ := hc
  obtain ⟨h0, _, hl⟩ := Write_first_touch s b k o data hno h
  rw [hl, remaining_without_wrap hpos ht ha h0]

/-- Witness for C18: on the engine `used`, which already holds the 7-byte buffer
of `("b", "k")`, the first `Write` to `("b", "q")` leaves another buffer of
`10 - 3 = 7` bytes. -/
theorem buffers_not_bounded_by_capacity_witness :
    Connected used ∧ buffer used "b" "q" = none ∧
      buffer (Write used "b" "q" 0 [4]).state "b" "q" = some [4, 0, 0, 0, 0, 0, 0] ∧
      ((([4, 0, 0, 0, 0, 0, 0] : List Byte).length : Nat) : Int)
        = used.totalCapacity - used.allocated :=
  ⟨by decide, by decide, by decide,
    buffers_not_bounded_by_capacity.2 used "b" "q" 0 [4] [4, 0, 0, 0, 0, 0, 0]
      (by decide) (by decide) (by decide)⟩

end Storage

namespace Server

open Storage

/-! ## The gateway's registry check -/

/-- The gateway `served` is what `CreateBucket("photos")` leaves on a gateway
whose engine was just connected with capacity 1060. -/
theorem served_reached :
    Connect fresh 1060 = .ok () ⟨1060, 0, some []⟩ ∧
      CreateBucket ⟨⟨1060, 0, some []⟩, []⟩ "photos" =
        ⟨some ⟨200, .text ""⟩, served,
          [.allocate 1024 "bucket_metadata",
            .write "buckets" "photos" 0 (bytesOf "<Bucket><Name>photos</Name></Bucket>")]⟩ := by
  decide

/-- C17: gateway rejection of unregistered buckets.  For every gateway state
and every bucket name that is not in the registry, whatever the key, the offset,
the uploaded file and the length, `PutObject` and `GetObject` respond with
404 Not Found, make no engine call, and leave the gateway state (the engine's
ledger and address space, and the registry) as it was.  The engine's address
space is not consulted, so it may hold a namespace of that name. -/
theorem unregistered_bucket_is_rejected (g : S3Server) (bucket key : String) (offset : Int)
    (upload : Upload) (lengthQuery : Option Int) (h : bucket ∉ g.buckets) :
    PutObject g bucket key offset upload
        = ⟨some ⟨404, .text "Bucket does not exist"⟩, g, []⟩ ∧
      GetObject g bucket key offset lengthQuery
        = ⟨some ⟨404, .xmlError "NoSuchBucket" "The specified bucket does not exist."⟩,
            g, []⟩ := by
  constructor
  · unfold PutObject
    rw [if_neg h]
  · unfold GetObject
    simp only
    rw [if_neg h]

/-- Witness for C17: on the gateway `served` the name `"buckets"` is not
registered although the engine holds the namespace `"buckets"`; an upload to it
and a read of the metadata key `"photos"` in it are both rejected. -/
theorem unregistered_bucket_is_rejected_witness :
    "buckets" ∉ served.buckets ∧ hasBucket served.storage "buckets" = true ∧
      PutObject served "buckets" "photos" 0 (.content [1, 2, 3])
        = ⟨some ⟨404, .text "Bucket does not exist"⟩, served, []⟩ ∧
      GetObject served "buckets" "photos" 0 (some 36)
        = ⟨some ⟨404, .xmlError "NoSuchBucket" "The specified bucket does not exist."⟩,
            served, []⟩ :=
  ⟨by decide, by decide,
    unregistered_bucket_is_rejected served "buckets" "photos" 0 (.content [1, 2, 3]) (some 36)
      (by decide)⟩

/-- `CreateBucket` on an unregistered name leaves the name in the registry,
however the handler ends. -/
theorem CreateBucket_registers (g : S3Server) (bucket : String) (h : bucket ∉ g.buckets) :
    (CreateBucket g bucket).server.buckets = bucket :: g.buckets := by
  unfold CreateBucket
  rw [if_neg h]
  simp only
  split
  · rfl
  · rfl
  · split <;> rfl

/-- The two ways `CreateBucket` responds 500 while registering the name: on an
engine of capacity 10 the 1024-byte metadata allocation fails; on an engine of
capacity 1024 the allocation succeeds, the new metadata buffer has
`1024 - 1024 = 0` bytes, and the metadata `Write` fails. -/
theorem create_bucket_failures :
    CreateBucket ⟨⟨10, 0, some []⟩, []⟩ "a" =
        ⟨some ⟨500, .text "Error allocating metadata capacity: invalid size for storage allocation"⟩,
          ⟨⟨10, 0, some []⟩, ["a"]⟩, [.allocate 1024 "bucket_metadata"]⟩ ∧
      CreateBucket ⟨⟨1024, 0, some []⟩, []⟩ "a" =
        ⟨some ⟨500, .text "Error storing bucket metadata: write exceeds storage capacity"⟩,
          ⟨⟨1024, 1024, some [("buckets", [("a", [])])]⟩, ["a"]⟩,
          [.allocate 1024 "bucket_metadata",
            .write "buckets" "a" 0 (bytesOf "<Bucket><Name>a</Name></Bucket>")]⟩ := by
  decide

/-- C19: `CreateBucket` registers the name before allocating.  For every gateway
state and every unregistered bucket name, if `CreateBucket` responds 500, then
its 1024-byte metadata allocation returned an error, or the allocation succeeded
and its metadata `Write` returned an error, and the name is in the registry
afterwards all the same; an immediately repeated `CreateBucket` of the name
responds 409 Conflict, makes no engine call and changes nothing; `PutObject` on
the bucket never gives the 404 of the bucket-exists check; and `GetObject` on it
goes on to the engine's `Read`. -/
theorem create_bucket_registers_before_allocating (g : S3Server) (bucket : String)
    (r : Response) (h : bucket ∉ g.buckets)
    (hr : (CreateBucket g bucket).response = some r) (h500 : r.status = 500) :
    ((∃ e st, AllocateBlockStorageCapacity g.storage 1024 "bucket_metadata" = .err e st ∧
          (CreateBucket g bucket).calls = [.allocate 1024 "bucket_metadata"]) ∨
        (∃ st e st', AllocateBlockStorageCapacity g.storage 1024 "bucket_metadata" = .ok () st ∧
          Write st "buckets" bucket 0 (bytesOf ("<Bucket><Name>" ++ bucket ++ "</Name></Bucket>"))
            = .err e st' ∧
          (CreateBucket g bucket).calls = [.allocate 1024 "bucket_metadata",
            .write "buckets" bucket 0
              (bytesOf ("<Bucket><Name>" ++ bucket ++ "</Name></Bucket>"))])) ∧
      bucket ∈ (CreateBucket g bucket).server.buckets ∧
      CreateBucket (CreateBucket g bucket).server bucket
        = ⟨some ⟨409, .text "Bucket already exists"⟩, (CreateBucket g bucket).server, []⟩ ∧
      (∀ key offset upload,
        (PutObject (CreateBucket g bucket).server bucket key offset upload).response
          ≠ some ⟨404, .text "Bucket does not exist"⟩) ∧
      (∀ key offset lengthQuery,
        (GetObject (CreateBucket g bucket).server bucket key offset lengthQuery).calls
          = [.read bucket key offset (lengthQuery.getD 1024)]) := by
  have hmem : bucket ∈ (CreateBucket g bucket).server.buckets := by
    rw [CreateBucket_registers g bucket h]
    exact List.mem_cons_self _ _
  refine ⟨?_, hmem, ?_, ?_, ?_⟩
  · clear hmem
    unfold CreateBucket at hr ⊢
    rw [if_neg h] at hr ⊢
    simp only at hr ⊢
    cases ha : AllocateBlockStorageCapacity g.storage 1024 "bucket_metadata" with
    | panic p st =>
      rw [ha] at hr
      simp at hr
    | err e st =>
      exact Or.inl ⟨e, st, rfl, rfl⟩
    | ok v st =>
      rw [ha] at hr
      simp only at hr ⊢
      cases hw : Write st "buckets" bucket 0
          (bytesOf ("<Bucket><Name>" ++ bucket ++ "</Name></Bucket>")) with
      | panic p st' =>
        rw [hw] at hr
        simp at hr
      | err e st' =>
        exact Or.inr ⟨st, e, st', rfl, hw, rfl⟩
      | ok v' st' =>
        rw [hw] at hr
        simp only [Option.some.injEq] at hr
        rw [← hr] at h500
        simp at h500
  · generalize (CreateBucket g bucket).server = g' at hmem
    unfold CreateBucket
    rw [if_pos hmem]
  · intro key offset upload
    generalize (CreateBucket g bucket).server = g' at hmem
    unfold PutObject
    rw [if_pos hmem]
    cases upload with
    | missing why => simp
    | unopenable why => simp
    | unreadable why => simp
    | content data =>
      simp only
      split
      · simp
      · simp
      · split
        · simp
        · simp
        · split <;> simp
  · intro key offset lengthQuery
    generalize (CreateBucket g bucket).server = g' at hmem
    unfold GetObject
    simp only
    rw [if_pos hmem]
    split <;> rfl

/-- Witness for C19: on a gateway whose engine was just connected with capacity
1024, `CreateBucket("a")` allocates the 1024 bytes, fails in the metadata
`Write` and responds 500; the name `"a"` is registered all the same. -/
theorem create_bucket_registers_before_allocating_witness :
    "a" ∉ (⟨⟨1024, 0, some []⟩, []⟩ : S3Server).buckets ∧
      (CreateBucket ⟨⟨1024, 0, some []⟩, []⟩ "a").response
        = some ⟨500, .text "Error storing bucket metadata: write exceeds storage capacity"⟩ ∧
      "a" ∈ (CreateBucket ⟨⟨1024, 0, some []⟩, []⟩ "a").server.buckets ∧
      CreateBucket (CreateBucket ⟨⟨1024, 0, some []⟩, []⟩ "a").server "a"
        = ⟨some ⟨409, .text "Bucket already exists"⟩,
            (CreateBucket ⟨⟨1024, 0, some []⟩, []⟩ "a").server, []⟩ :=
  ⟨by decide, by decide,
    (create_bucket_registers_before_allocating ⟨⟨1024, 0, some []⟩, []⟩ "a"
      ⟨500, .text "Error storing bucket metadata: write exceeds storage capacity"⟩
      (by decide) (by decide) rfl).2.1,
    (create_bucket_registers_before_allocating ⟨⟨1024, 0, some []⟩, []⟩ "a"
      ⟨500, .text "Error storing bucket metadata: write exceeds storage capacity"⟩
      (by decide) (by decide) rfl).2.2.1⟩

end Server
